import Mathlib

/-
Verification of the Kafka partition-placement simulator
(`internal/placement/placement.go` and the monolithic copy in `main.go`).

Shallow-embedding conventions, fixed once for the whole development:

* Go `int` configuration fields are modelled as `Int` (inputs may be
  degenerate or negative when front-end validation is bypassed); loop
  bounds use `Int.toNat`, which matches Go `for i := 0; i < n; i++`
  running `max 0 n` times.
* Go maps (`map[int]*DCInfo`, `map[int]*BrokerInfo`) are modelled as
  lists in key-insertion order.  The program inserts DC ids `1..numDCs`
  and broker ids `0..totalBrokers-1` in ascending order, so iteration
  over the model lists enumerates ids ascending.  The boolean maps
  `assignedBrokerIDs` / `assignedDCs` are modelled as `Finset Nat`
  (only membership and `len` are used by the program).
* The mutation of `broker.Replicas` through pointers is modelled by an
  append-only event log of `(broker, partition, role)` entries in
  chronological order; the final topology is rebuilt from the log
  (`buildTopology`).  Per-broker replica order in the rebuilt topology
  equals Go's append order because the log is chronological.
* `rand.Shuffle` is modelled by a parameter `shuffles : Nat → List Nat`
  giving, for each partition index, the shuffled copy of
  `allBrokerIDs`; theorems quantify over all permutations.
* A Go runtime panic (integer division by zero, index out of range) is
  modelled by returning `Option.none` from the top-level function.
-/

namespace KafkaViz

/-- Cluster deployment mode, from `config.ClusterType`
(`SingleCluster`, `MRC`). -/
inductive ClusterType where
  | SingleCluster
  | MRC
deriving DecidableEq, Repr

/-- Role of a replica, from `config.ReplicaRole`
(`Leader`, `Follower`, `Observer`). -/
inductive ReplicaRole where
  | Leader
  | Follower
  | Observer
deriving DecidableEq, Repr

/-- One replica assignment, from `config.ReplicaInfo`
(`PartitionID int`, `Role ReplicaRole`).  Partition ids produced by the
program are the positive numbers `1..P`, so `Nat` suffices. -/
structure ReplicaInfo where
  partitionID : Nat
  role : ReplicaRole
deriving DecidableEq, Repr

/-- One broker, from `config.BrokerInfo` (`ID int`, `Replicas []ReplicaInfo`). -/
structure BrokerInfo where
  id : Nat
  replicas : List ReplicaInfo
deriving DecidableEq, Repr

/-- One data center, from `config.DCInfo`
(`ID int`, `Brokers map[int]*BrokerInfo`); the broker map is modelled as
a list in key-insertion (= ascending-id) order. -/
structure DCInfo where
  id : Nat
  brokers : List BrokerInfo
deriving DecidableEq, Repr

/-- The input record, from `config.PlacementConfig` (field order as in the
positional literal built in `internal/tui/input.go`). -/
structure PlacementConfig where
  clusterType : ClusterType
  numPartitions : Int
  replicationFactor : Int
  minInSyncReplicas : Int
  numBrokers : Int
  numDCs : Int
deriving DecidableEq, Repr

/-- One recorded replica assignment: broker id, partition id, role.
Chronological lists of these form the event log of the engine run. -/
structure Entry where
  broker : Nat
  partition : Nat
  role : ReplicaRole
deriving DecidableEq, Repr

/-! ### Topology skeleton

`CalculatePlacement` first builds the DC/broker structure: DC ids are
`1..numDCs`, broker ids count up from `0`, `brokersPerDC` per DC
(`placement.go` lines 32-63).  The skeleton is parametrised by the
effective DC count `D` and per-DC broker count `B` so that the package
version (which forces `numDCs = 1` for a single cluster) and the
`main.go` version (which uses `m.numDCs` as stored) can share it. -/

/-- Broker ids created inside the DC with zero-based index `dcIdx`:
`brokerIDCounter` has already counted `dcIdx * B` brokers. -/
def dcBrokerIDs (B dcIdx : Nat) : List Nat :=
  (List.range B).map (fun j => dcIdx * B + j)

/-- The freshly initialised DC list (replica lists all empty):
`dcs[dcIdx+1] = {ID: dcIdx+1, Brokers: ...}` for `dcIdx < D`. -/
def initDCsOf (D B : Nat) : List DCInfo :=
  (List.range D).map (fun dcIdx =>
    { id := dcIdx + 1
      brokers := (dcBrokerIDs B dcIdx).map (fun b => { id := b, replicas := [] }) })

/-- Effective DC count used by the package engine: `numDCs := cfg.NumDCs`,
forced to `1` for a single cluster (`placement.go` lines 33-37). -/
def numDCsEff (cfg : PlacementConfig) : Nat :=
  if cfg.clusterType = ClusterType.SingleCluster then 1 else cfg.numDCs.toNat

/-- Total brokers created (`totalBrokers = brokerIDCounter`). -/
def totalBrokersOf (D B : Nat) : Nat := D * B

/-- The global broker id list built by iterating `dcID = 1..numDCs` over the
DC map and ranging over each DC's broker map (`placement.go` lines 78-86).
The inner `for brokerID := range dcInfo.Brokers` iterates a Go map, whose
order is unspecified (and randomized by the runtime); this definition is
the insertion-order (ascending-id) instance, used by the claims whose
conclusions do not depend on the enumeration order.  The general form with
the enumeration as an explicit parameter is `allBrokerIDsWith` below; the
leader round robin of C4 is settled against that form. -/
def allBrokerIDsOf (D B : Nat) : List Nat :=
  (List.range D).flatMap (dcBrokerIDs B)

/-- The global broker id list with the map-iteration order explicit: DC ids
ascending (that outer loop is an ordinary deterministic `for`), each DC's
broker map enumerated in the order `orders d` chosen by the runtime for
the DC with zero-based index `d`.  An order is admissible when `orders d`
is a permutation of `dcBrokerIDs B d`; `allBrokerIDsOf D B` is the
instance `orders := dcBrokerIDs B`. -/
def allBrokerIDsWith (orders : Nat → List Nat) (D : Nat) : List Nat :=
  (List.range D).flatMap orders

/-- The `findBroker` helper: searches all DCs for the broker with the given
id and returns its DC (the broker itself is determined by the id).
Returns the DC id; `none` models Go's `nil, nil`.  It only inspects ids,
never replica lists, so it is evaluated on the skeleton. -/
def findBroker (brokerID : Nat) (dcs : List DCInfo) : Option Nat :=
  (dcs.find? (fun dc => dc.brokers.any (fun br => br.id = brokerID))).map DCInfo.id

/-! ### MRC advisory -/

/-- The MRC recommendation string (`placement.go` lines 66-75).  Go computes
`minPerDC := RF / numDCs` with `int` (truncated) division and
`extra := RF % numDCs`; when `numDCs = 0` is reachable (MRC mode with
`RF > 0`) that division panics, modelled as `none`. -/
def mrcRecommendationOf (cfg : PlacementConfig) : Option String :=
  if cfg.clusterType = ClusterType.MRC then
    let base := s!"Distribute {cfg.replicationFactor} replicas across {cfg.numDCs} DCs for fault tolerance."
    if cfg.replicationFactor ≤ cfg.numDCs then
      some (base ++ " Aim for at most one replica per DC per partition.")
    else if cfg.numDCs = 0 then
      none
    else
      let minPerDC := cfg.replicationFactor.tdiv cfg.numDCs
      let extra := cfg.replicationFactor.tmod cfg.numDCs
      some (base ++ s!" Aim for ~{minPerDC} replicas per DC, with {extra} DCs having an extra replica.")
  else
    some ""

/-! ### Per-partition placement state

All mutable per-partition variables of the placement loop
(`placement.go` lines 98-235), except the shared topology, which is
represented by the per-partition event log `entries`. -/

/-- State threaded through the two placement passes of one partition. -/
structure PassState where
  /-- Replicas recorded for the current partition, in assignment order. -/
  entries : List Entry
  /-- The `assignedBrokerIDs` set. -/
  assignedB : Finset Nat
  /-- The `assignedDCs` set. -/
  assignedD : Finset Nat
  /-- The `replicasPlaced` counter. -/
  replicasPlaced : Nat
  /-- The `numFollowers` counter. -/
  numFollowers : Nat
  /-- The `numObservers` counter. -/
  numObservers : Nat
deriving DecidableEq

/-- The MRC role choice shared by both passes (`placement.go` lines
175-193 and 204-216): `Follower` while `numFollowers < targetFollowers`,
then `Observer` (the second and third branches both yield `Observer` and
bump `numObservers`).  Returns the role and updated counters. -/
def mrcRolePick (tF tO nF nO : Nat) : ReplicaRole × Nat × Nat :=
  if nF < tF then (ReplicaRole.Follower, nF + 1, nO)
  else if nO < tO then (ReplicaRole.Observer, nF, nO + 1)
  else (ReplicaRole.Observer, nF, nO + 1)

/-- The Go condition `canPlaceElsewhere`: some broker in `brokersToTry` is
still unassigned and sits in a DC not yet used by this partition
(`placement.go` lines 158-168). -/
def canPlaceElsewhereB (dcs0 : List DCInfo) (brokersToTry : List Nat)
    (aB aD : Finset Nat) : Bool :=
  brokersToTry.any (fun other =>
    !decide (other ∈ aB) &&
      (match findBroker other dcs0 with
       | some otherDC => !decide (otherDC ∈ aD)
       | none => false))

/-- The pass-1 `placeInThisDC` flag (`placement.go` lines 153-173): in MRC
mode, while not all DCs carry a replica of this partition, a candidate in
an already-used DC is deferred whenever some unassigned broker sits in a
still-unused DC. -/
def placeInThisDCB (cfg : PlacementConfig) (dcs0 : List DCInfo) (brokersToTry : List Nat)
    (aB aD : Finset Nat) (dcID : Nat) : Bool :=
  if cfg.clusterType = ClusterType.MRC ∧ (aD.card : Int) < cfg.numDCs then
    if dcID ∈ aD then !canPlaceElsewhereB dcs0 brokersToTry aB aD
    else true
  else true

/-- The role selection of the first pass (`placement.go` lines 175-193):
single-cluster mode assigns `Follower` unconditionally and never touches
the counters; MRC mode uses the shared counter logic. -/
def rolePickOf (cfg : PlacementConfig) (tF tO : Nat) (st : PassState) :
    ReplicaRole × Nat × Nat :=
  if cfg.clusterType = ClusterType.SingleCluster then
    (ReplicaRole.Follower, st.numFollowers, st.numObservers)
  else
    mrcRolePick tF tO st.numFollowers st.numObservers

/-- The append block shared (verbatim, in the source) by both passes:
record the replica, mark the broker assigned, bump `replicasPlaced`, set
the counters, and set `assignedDCs` (pass 1 inserts the DC, pass 2 passes
it through unchanged). -/
def placeReplica (pid : Nat) (st : PassState) (b : Nat) (r : ReplicaRole)
    (nF nO : Nat) (aD : Finset Nat) : PassState :=
  { entries := st.entries ++ [⟨b, pid, r⟩]
    assignedB := insert b st.assignedB
    assignedD := aD
    replicasPlaced := st.replicasPlaced + 1
    numFollowers := nF
    numObservers := nO }

/-- One iteration of the first placement pass (`placement.go` lines
141-197) for candidate `brokerID`.  The `break` when `replicasPlaced >= RF`
is modelled by the leading test (once the bound is reached every later
iteration is a no-op, which is extensionally the same as breaking). -/
def pass1Step (cfg : PlacementConfig) (dcs0 : List DCInfo) (brokersToTry : List Nat)
    (partitionID tF tO : Nat) (st : PassState) (brokerID : Nat) : PassState :=
  if cfg.replicationFactor ≤ (st.replicasPlaced : Int) then st
  else if brokerID ∈ st.assignedB then st
  else
    match findBroker brokerID dcs0 with
    | none => st
    | some dcID =>
      if placeInThisDCB cfg dcs0 brokersToTry st.assignedB st.assignedD dcID then
        let rp := rolePickOf cfg tF tO st
        placeReplica partitionID st brokerID rp.1 rp.2.1 rp.2.2 (insert dcID st.assignedD)
      else st

/-- One iteration of the second (MRC fill) pass (`placement.go` lines
200-231): no DC preference, `assignedDCs` not updated, role logic as in
pass 1's MRC branch. -/
def pass2Step (cfg : PlacementConfig) (dcs0 : List DCInfo)
    (partitionID tF tO : Nat) (st : PassState) (brokerID : Nat) : PassState :=
  if cfg.replicationFactor ≤ (st.replicasPlaced : Int) then st
  else if brokerID ∈ st.assignedB then st
  else
    match findBroker brokerID dcs0 with
    | none => st
    | some _ =>
      let rp := mrcRolePick tF tO st.numFollowers st.numObservers
      placeReplica partitionID st brokerID rp.1 rp.2.1 rp.2.2 st.assignedD

/-- The `targetFollowers` value: `minISR - 1` clamped at `0`, computed only
in MRC mode (`placement.go` lines 128-133); the Go variable defaults to `0`
otherwise. -/
def targetFollowersOf (cfg : PlacementConfig) : Nat :=
  if cfg.clusterType = ClusterType.MRC then (cfg.minInSyncReplicas - 1).toNat else 0

/-- The `targetObservers` value: `RF - 1 - targetFollowers` clamped at `0`,
computed only in MRC mode (`placement.go` lines 134-137). -/
def targetObserversOf (cfg : PlacementConfig) : Nat :=
  if cfg.clusterType = ClusterType.MRC then
    (cfg.replicationFactor - 1 - ((cfg.minInSyncReplicas - 1).toNat : Int)).toNat
  else 0

/-- The per-partition state right after the leader assignment
(`placement.go` lines 107-121): the leader replica recorded, its broker
and DC marked used, `replicasPlaced = 1`, counters zero. -/
def leaderState (leaderBrokerID pid leaderDC : Nat) : PassState :=
  { entries := [⟨leaderBrokerID, pid, ReplicaRole.Leader⟩]
    assignedB := {leaderBrokerID}
    assignedD := {leaderDC}
    replicasPlaced := 1
    numFollowers := 0
    numObservers := 0 }

/-- The two placement passes over the shuffled broker list
(`placement.go` lines 141-235): pass 1 always runs, pass 2 only in MRC
mode when the partition is still under-replicated. -/
def runPasses (cfg : PlacementConfig) (dcs0 : List DCInfo) (shuffled : List Nat)
    (pid : Nat) (st0 : PassState) : PassState :=
  let tF := targetFollowersOf cfg
  let tO := targetObserversOf cfg
  let st1 := shuffled.foldl (pass1Step cfg dcs0 shuffled pid tF tO) st0
  if cfg.clusterType = ClusterType.MRC ∧ (st1.replicasPlaced : Int) < cfg.replicationFactor then
    shuffled.foldl (pass2Step cfg dcs0 pid tF tO) st1
  else st1

/-- Replica assignments produced for the partition with zero-based index
`p` (`placement.go` lines 98-235), given the skeleton parameters and this
partition's shuffled broker list.  The leader lookup index
`p % totalBrokers` is in bounds because the caller only runs partitions
when `totalBrokers > 0` and `allBrokerIDs` has length `totalBrokers`
(lemma `allBrokerIDsOf_eq_range`), so Go's panicking index never fires;
`getD` is therefore an exact model.  A failed leader lookup skips the
partition (`continue`), contributing no entries. -/
def partitionEntries (cfg : PlacementConfig) (D B : Nat) (shuffled : List Nat)
    (p : Nat) : List Entry :=
  let dcs0 := initDCsOf D B
  let leaderBrokerID := (allBrokerIDsOf D B).getD (p % totalBrokersOf D B) 0
  match findBroker leaderBrokerID dcs0 with
  | none => []
  | some leaderDC =>
    (runPasses cfg dcs0 shuffled (p + 1)
      (leaderState leaderBrokerID (p + 1) leaderDC)).entries

/-- The full event log of one engine run: partitions `0..P-1` processed in
order, each independently (the per-partition bookkeeping is reset for
every partition, and the passes read the shared topology only through
`findBroker`, which ignores replica lists). -/
def placementLog (cfg : PlacementConfig) (D B : Nat)
    (shuffles : Nat → List Nat) : List Entry :=
  (List.range cfg.numPartitions.toNat).flatMap
    (fun p => partitionEntries cfg D B (shuffles p) p)

/-- Replicas of one broker, recovered from the event log in chronological
(= Go append) order. -/
def replicasFor (log : List Entry) (brokerID : Nat) : List ReplicaInfo :=
  log.filterMap (fun e =>
    if e.broker = brokerID then some ⟨e.partition, e.role⟩ else none)

/-- The final topology: the skeleton with each broker's replica list
filled in from the event log. -/
def buildTopology (D B : Nat) (log : List Entry) : List DCInfo :=
  (initDCsOf D B).map (fun dc =>
    { dc with brokers := dc.brokers.map (fun b =>
        { b with replicas := replicasFor log b.id }) })

/-- The package placement engine `placement.CalculatePlacement`
(`placement.go` lines 19-239) as a function of the configuration and the
per-partition shuffle outcomes.  `none` models a Go panic (only the
advisory's division by zero is reachable).  The dead-code guard
`totalBrokers > 0 && len(allBrokerIDs) == 0` (lines 88-93) is kept
verbatim; the `totalBrokers == 0` guard (lines 94-97) returns the
initialised empty topology. -/
def CalculatePlacement (cfg : PlacementConfig) (shuffles : Nat → List Nat) :
    Option (List DCInfo × String) :=
  let D := numDCsEff cfg
  let B := cfg.numBrokers.toNat
  match mrcRecommendationOf cfg with
  | none => none
  | some recommendation =>
    if 0 < totalBrokersOf D B ∧ (allBrokerIDsOf D B).length = 0 then
      some (initDCsOf D B, recommendation)
    else if totalBrokersOf D B = 0 then
      some (initDCsOf D B, recommendation)
    else
      some (buildTopology D B (placementLog cfg D B shuffles), recommendation)

/-! ### The monolithic copy in `main.go`

`(*model).calculatePlacement` (`main.go` lines 486-670) is the same code
with three differences: `m.numDCs` is used as stored (no forcing to `1`
for a single cluster — the submit handler sets `m.numDCs = 1` in that
flow), there are no zero-broker guards (with zero brokers and at least
one partition, `p % totalBrokers` divides by zero and panics, modelled
as `none`), and the DC lookup in the `allBrokerIDs` loop has no `ok`
check (the DC always exists, since the same loop bounds created it).
The method writes `m.dcs` / `m.mrcRecommendation` on a freshly reset
model (`m.mrcRecommendation` starts `""`); it is modelled as returning
the pair. -/

namespace Monolithic

/-- The `main.go` engine.  Same shuffle parametrisation as the package
version. -/
def calculatePlacement (cfg : PlacementConfig) (shuffles : Nat → List Nat) :
    Option (List DCInfo × String) :=
  let D := cfg.numDCs.toNat
  let B := cfg.numBrokers.toNat
  match mrcRecommendationOf cfg with
  | none => none
  | some recommendation =>
    if totalBrokersOf D B = 0 ∧ 0 < cfg.numPartitions then
      none
    else if totalBrokersOf D B = 0 then
      some (initDCsOf D B, recommendation)
    else
      some (buildTopology D B (placementLog cfg D B shuffles), recommendation)

end Monolithic

/-! ### The engine with the map-iteration order explicit

Identical to `partitionEntries` / `placementLog` / `CalculatePlacement`
except that the global broker id list is `allBrokerIDsWith orders`
instead of its insertion-order instance: this keeps the nondeterminism of
`for brokerID := range dcInfo.Brokers` that the fixed-order definitions
erase.  Only the leader selection reads the list's order (the shuffled
copy is already quantified as an arbitrary permutation), so this is the
form against which the leader-round-robin claim (C4) is settled. -/

/-- `partitionEntries` with an explicit per-DC broker enumeration. -/
def partitionEntriesWith (orders : Nat → List Nat) (cfg : PlacementConfig)
    (D B : Nat) (shuffled : List Nat) (p : Nat) : List Entry :=
  let dcs0 := initDCsOf D B
  let leaderBrokerID := (allBrokerIDsWith orders D).getD (p % totalBrokersOf D B) 0
  match findBroker leaderBrokerID dcs0 with
  | none => []
  | some leaderDC =>
    (runPasses cfg dcs0 shuffled (p + 1)
      (leaderState leaderBrokerID (p + 1) leaderDC)).entries

/-- `placementLog` with an explicit per-DC broker enumeration. -/
def placementLogWith (orders : Nat → List Nat) (cfg : PlacementConfig)
    (D B : Nat) (shuffles : Nat → List Nat) : List Entry :=
  (List.range cfg.numPartitions.toNat).flatMap
    (fun p => partitionEntriesWith orders cfg D B (shuffles p) p)

/-- `CalculatePlacement` with an explicit per-DC broker enumeration. -/
def CalculatePlacementWith (orders : Nat → List Nat) (cfg : PlacementConfig)
    (shuffles : Nat → List Nat) : Option (List DCInfo × String) :=
  let D := numDCsEff cfg
  let B := cfg.numBrokers.toNat
  match mrcRecommendationOf cfg with
  | none => none
  | some recommendation =>
    if 0 < totalBrokersOf D B ∧ (allBrokerIDsWith orders D).length = 0 then
      some (initDCsOf D B, recommendation)
    else if totalBrokersOf D B = 0 then
      some (initDCsOf D B, recommendation)
    else
      some (buildTopology D B (placementLogWith orders cfg D B shuffles),
        recommendation)

/-! ### Counting helpers used by the claims -/

/-- Number of replicas of partition `pid` with role `role`, counted across
all brokers of all DCs of a topology. -/
def countRole (dcs : List DCInfo) (pid : Nat) (role : ReplicaRole) : Nat :=
  (dcs.map (fun dc =>
    (dc.brokers.map (fun b =>
      (b.replicas.filter (fun r =>
        decide (r.partitionID = pid) && decide (r.role = role))).length)).sum)).sum

/-- Number of replicas of partition `pid` (any role), counted across all
brokers of all DCs of a topology. -/
def countReplicas (dcs : List DCInfo) (pid : Nat) : Nat :=
  (dcs.map (fun dc =>
    (dc.brokers.map (fun b =>
      (b.replicas.filter (fun r => decide (r.partitionID = pid))).length)).sum)).sum

/-! ### Skeleton facts -/

theorem allBrokerIDsOf_eq_range (D B : Nat) :
    allBrokerIDsOf D B = List.range (D * B) := by
  induction D with
  | zero => simp [allBrokerIDsOf]
  | succ D ih =>
    rw [allBrokerIDsOf, List.range_succ, List.flatMap_append, ← allBrokerIDsOf, ih,
      Nat.succ_mul, List.range_add]
    simp [dcBrokerIDs, Nat.mul_comm]

theorem length_allBrokerIDsOf (D B : Nat) :
    (allBrokerIDsOf D B).length = totalBrokersOf D B := by
  rw [allBrokerIDsOf_eq_range]; simp [totalBrokersOf]

theorem getD_allBrokerIDsOf (D B i : Nat) (h : i < D * B) :
    (allBrokerIDsOf D B).getD i 0 = i := by
  rw [allBrokerIDsOf_eq_range, List.getD_eq_getElem?_getD, List.getElem?_range h]
  rfl

/-- Broker ids appearing in the skeleton DC with index `dcIdx`. -/
theorem mem_dcBrokerIDs {B dcIdx b : Nat} :
    b ∈ dcBrokerIDs B dcIdx ↔ ∃ j < B, dcIdx * B + j = b := by
  simp [dcBrokerIDs]

/-- Every global broker id is found by `findBroker` on the fresh skeleton. -/
theorem findBroker_initDCsOf_isSome {D B b : Nat} (h : b < D * B) :
    ∃ d, findBroker b (initDCsOf D B) = some d := by
  have hB : 0 < B := by
    rcases Nat.eq_zero_or_pos B with hB | hB
    · subst hB; omega
    · exact hB
  have hsome : ((initDCsOf D B).find?
      (fun dc => dc.brokers.any (fun br => br.id = b))).isSome := by
    rw [List.find?_isSome]
    refine ⟨{ id := b / B + 1
              brokers := (dcBrokerIDs B (b / B)).map (fun i => { id := i, replicas := [] }) },
      ?_, ?_⟩
    · rw [initDCsOf, List.mem_map]
      exact ⟨b / B, List.mem_range.mpr (Nat.div_lt_iff_lt_mul hB |>.mpr (by omega)), rfl⟩
    · rw [List.any_eq_true]
      refine ⟨{ id := b, replicas := [] }, ?_, by simp⟩
      rw [List.mem_map]
      refine ⟨b, mem_dcBrokerIDs.mpr ⟨b % B, Nat.mod_lt _ hB, ?_⟩, rfl⟩
      rw [Nat.mul_comm]
      exact Nat.div_add_mod b B
  rcases Option.isSome_iff_exists.mp hsome with ⟨dc, hdc⟩
  exact ⟨dc.id, by rw [findBroker, hdc]; rfl⟩

/-! ### Common shape of the two pass bodies

Both pass bodies either leave the state unchanged (break reached, broker
already assigned, broker not found, or pass-1 zone deferral) or append
exactly one replica for a not-yet-assigned broker and bump the
bookkeeping.  All per-partition invariants follow from this shape. -/

/-- How the role and counters of a newly placed replica relate to the
pre-state: single-cluster mode always picks `Follower` and leaves the
counters alone; MRC mode uses `mrcRolePick`. -/
def RolePick (cfg : PlacementConfig) (tF tO : Nat) (st : PassState)
    (r : ReplicaRole) (nF nO : Nat) : Prop :=
  if cfg.clusterType = ClusterType.SingleCluster then
    r = ReplicaRole.Follower ∧ nF = st.numFollowers ∧ nO = st.numObservers
  else
    (r, nF, nO) = mrcRolePick tF tO st.numFollowers st.numObservers

/-- Shape of a pass body: skip, or place one replica. -/
def StepShape (cfg : PlacementConfig) (dcs0 : List DCInfo) (pid tF tO : Nat)
    (f : PassState → Nat → PassState) : Prop :=
  ∀ st b, f st b = st ∨
    (¬ cfg.replicationFactor ≤ (st.replicasPlaced : Int) ∧ b ∉ st.assignedB ∧
      (∃ d, findBroker b dcs0 = some d) ∧
      ∃ r nF nO aD,
        RolePick cfg tF tO st r nF nO ∧
        f st b = { entries := st.entries ++ [⟨b, pid, r⟩]
                   assignedB := insert b st.assignedB
                   assignedD := aD
                   replicasPlaced := st.replicasPlaced + 1
                   numFollowers := nF
                   numObservers := nO })

/-- `RolePick` is exactly the equation with `rolePickOf`. -/
theorem rolePick_iff (cfg : PlacementConfig) (tF tO : Nat) (st : PassState)
    (r : ReplicaRole) (nF nO : Nat) :
    RolePick cfg tF tO st r nF nO ↔ (r, nF, nO) = rolePickOf cfg tF tO st := by
  unfold RolePick rolePickOf
  by_cases hmode : cfg.clusterType = ClusterType.SingleCluster <;>
    simp [hmode, Prod.ext_iff, eq_comm]

theorem pass1Step_shape (cfg : PlacementConfig) (dcs0 : List DCInfo)
    (l : List Nat) (pid tF tO : Nat) :
    StepShape cfg dcs0 pid tF tO (pass1Step cfg dcs0 l pid tF tO) := by
  intro st b
  by_cases hdone : cfg.replicationFactor ≤ (st.replicasPlaced : Int)
  · exact Or.inl (by simp [pass1Step, hdone])
  by_cases hmem : b ∈ st.assignedB
  · exact Or.inl (by simp [pass1Step, hdone, hmem])
  cases hfb : findBroker b dcs0 with
  | none => exact Or.inl (by simp [pass1Step, hdone, hmem, hfb])
  | some d =>
    by_cases hp : placeInThisDCB cfg dcs0 l st.assignedB st.assignedD d = true
    · refine Or.inr ⟨hdone, hmem, ⟨d, rfl⟩,
        (rolePickOf cfg tF tO st).1, (rolePickOf cfg tF tO st).2.1,
        (rolePickOf cfg tF tO st).2.2, insert d st.assignedD, ?_, ?_⟩
      · exact (rolePick_iff ..).mpr rfl
      · simp [pass1Step, hdone, hmem, hfb, hp, placeReplica]
    · exact Or.inl (by simp [pass1Step, hdone, hmem, hfb, hp])

theorem pass2Step_shape (cfg : PlacementConfig) (dcs0 : List DCInfo)
    (pid tF tO : Nat) (hmode : cfg.clusterType ≠ ClusterType.SingleCluster) :
    StepShape cfg dcs0 pid tF tO (pass2Step cfg dcs0 pid tF tO) := by
  intro st b
  by_cases hdone : cfg.replicationFactor ≤ (st.replicasPlaced : Int)
  · exact Or.inl (by simp [pass2Step, hdone])
  by_cases hmem : b ∈ st.assignedB
  · exact Or.inl (by simp [pass2Step, hdone, hmem])
  cases hfb : findBroker b dcs0 with
  | none => exact Or.inl (by simp [pass2Step, hdone, hmem, hfb])
  | some d =>
    refine Or.inr ⟨hdone, hmem, ⟨d, rfl⟩,
      (mrcRolePick tF tO st.numFollowers st.numObservers).1,
      (mrcRolePick tF tO st.numFollowers st.numObservers).2.1,
      (mrcRolePick tF tO st.numFollowers st.numObservers).2.2, st.assignedD, ?_, ?_⟩
    · rw [rolePick_iff]
      simp [rolePickOf, hmode]
    · simp [pass2Step, hdone, hmem, hfb, placeReplica]

/-- Once `replicasPlaced >= RF`, every remaining iteration is a no-op
(this is why modelling `break` as a leading test is exact). -/
theorem foldl_done {cfg : PlacementConfig} {dcs0 : List DCInfo} {pid tF tO : Nat}
    {f : PassState → Nat → PassState} (hsh : StepShape cfg dcs0 pid tF tO f) :
    ∀ (l : List Nat) (st : PassState),
      cfg.replicationFactor ≤ (st.replicasPlaced : Int) → l.foldl f st = st := by
  intro l
  induction l with
  | nil => intro st _; rfl
  | cons b l ih =>
    intro st h
    have hstep : f st b = st := by
      rcases hsh st b with h1 | ⟨hnd, _⟩
      · exact h1
      · exact absurd h hnd
    rw [List.foldl_cons, hstep, ih st h]

theorem step_assignedB_subset {cfg : PlacementConfig} {dcs0 : List DCInfo}
    {pid tF tO : Nat} {f : PassState → Nat → PassState}
    (hsh : StepShape cfg dcs0 pid tF tO f) (st : PassState) (b : Nat) :
    st.assignedB ⊆ (f st b).assignedB := by
  rcases hsh st b with h | ⟨_, _, _, r, nF, nO, aD, _, h⟩ <;> rw [h]
  exact Finset.subset_insert _ _

theorem step_replicasPlaced_le {cfg : PlacementConfig} {dcs0 : List DCInfo}
    {pid tF tO : Nat} {f : PassState → Nat → PassState}
    (hsh : StepShape cfg dcs0 pid tF tO f) (st : PassState) (b : Nat) :
    st.replicasPlaced ≤ (f st b).replicasPlaced := by
  rcases hsh st b with h | ⟨_, _, _, r, nF, nO, aD, _, h⟩ <;> rw [h]
  exact Nat.le_succ _

theorem foldl_assignedB_subset {cfg : PlacementConfig} {dcs0 : List DCInfo}
    {pid tF tO : Nat} {f : PassState → Nat → PassState}
    (hsh : StepShape cfg dcs0 pid tF tO f) :
    ∀ (l : List Nat) (st : PassState), st.assignedB ⊆ (l.foldl f st).assignedB := by
  intro l
  induction l with
  | nil => intro st; exact Finset.Subset.refl _
  | cons b l ih =>
    intro st
    exact Finset.Subset.trans (step_assignedB_subset hsh st b) (ih (f st b))

theorem foldl_replicasPlaced_le {cfg : PlacementConfig} {dcs0 : List DCInfo}
    {pid tF tO : Nat} {f : PassState → Nat → PassState}
    (hsh : StepShape cfg dcs0 pid tF tO f) :
    ∀ (l : List Nat) (st : PassState), st.replicasPlaced ≤ (l.foldl f st).replicasPlaced := by
  intro l
  induction l with
  | nil => intro st; exact Nat.le_refl _
  | cons b l ih =>
    intro st
    exact Nat.le_trans (step_replicasPlaced_le hsh st b) (ih (f st b))

/-! ### The per-partition invariant -/

/-- Invariant of the per-partition state, established by the leader
assignment and preserved by both passes.  `pid` is the (1-based)
partition id, `leaderID` the leader's broker id, `n` the total broker
count, `tF` the `targetFollowers` value. -/
structure PassInv (cfg : PlacementConfig) (tF pid leaderID n : Nat)
    (st : PassState) : Prop where
  assignedB_eq : st.assignedB = (st.entries.map Entry.broker).toFinset
  brokers_nodup : (st.entries.map Entry.broker).Nodup
  brokers_lt : ∀ e ∈ st.entries, e.broker < n
  partition_eq : ∀ e ∈ st.entries, e.partition = pid
  length_eq : st.entries.length = st.replicasPlaced
  head_eq : st.entries.head? = some ⟨leaderID, pid, ReplicaRole.Leader⟩
  roles_single : cfg.clusterType = ClusterType.SingleCluster →
    st.entries.map Entry.role =
      ReplicaRole.Leader :: List.replicate (st.entries.length - 1) ReplicaRole.Follower
  roles_mrc : cfg.clusterType ≠ ClusterType.SingleCluster →
    st.entries.map Entry.role = ReplicaRole.Leader ::
      (List.replicate st.numFollowers ReplicaRole.Follower ++
        List.replicate st.numObservers ReplicaRole.Observer) ∧
      st.numFollowers ≤ tF ∧ (0 < st.numObservers → st.numFollowers = tF)
  placed_le : (st.replicasPlaced : Int) ≤ max cfg.replicationFactor 1

theorem PassInv.step {cfg : PlacementConfig} {dcs0 : List DCInfo}
    {pid tF tO leaderID n : Nat} {f : PassState → Nat → PassState}
    (hsh : StepShape cfg dcs0 pid tF tO f) {st : PassState} {b : Nat}
    (hb : b < n) (h : PassInv cfg tF pid leaderID n st) :
    PassInv cfg tF pid leaderID n (f st b) := by
  rcases hsh st b with he | ⟨hlt, hnb, _, r, nF, nO, aD, hrp, he⟩
  · rw [he]; exact h
  have hne : st.entries ≠ [] := by
    intro hnil
    have hhd := h.head_eq
    rw [hnil] at hhd
    simp at hhd
  have hb_not_mem : b ∉ st.entries.map Entry.broker := by
    intro hmem
    exact hnb (h.assignedB_eq ▸ List.mem_toFinset.mpr hmem)
  rw [he]
  refine ⟨?_, ?_, ?_, ?_, ?_, ?_, ?_, ?_, ?_⟩
  · simp only [List.map_append, List.toFinset_append, h.assignedB_eq]
    simp [Finset.union_comm, Finset.insert_eq]
  · simp only [List.map_append]
    rw [List.nodup_append]
    exact ⟨h.brokers_nodup, List.nodup_singleton b, by simpa using hb_not_mem⟩
  · intro e he'
    rcases List.mem_append.mp he' with h1 | h1
    · exact h.brokers_lt e h1
    · simp at h1; rw [h1]; exact hb
  · intro e he'
    rcases List.mem_append.mp he' with h1 | h1
    · exact h.partition_eq e h1
    · simp at h1; rw [h1]
  · simp [h.length_eq]
  · rcases List.exists_cons_of_ne_nil hne with ⟨e₀, rest, hcons⟩
    have := h.head_eq
    rw [hcons] at this ⊢
    simpa using this
  · intro hmode
    have hr : r = ReplicaRole.Follower ∧ nF = st.numFollowers ∧ nO = st.numObservers := by
      have := hrp; rw [RolePick, if_pos hmode] at this; exact this
    have hlen1 : 1 ≤ st.entries.length := Nat.one_le_iff_ne_zero.mpr
      (fun h0 => hne (List.eq_nil_of_length_eq_zero h0))
    rw [List.map_append, h.roles_single hmode, hr.1]
    simp only [List.length_append, List.length_singleton, List.map_cons]
    have : st.entries.length + 1 - 1 = (st.entries.length - 1) + 1 := by omega
    rw [this, List.replicate_succ']
    simp
  · intro hmode
    have hr : (r, nF, nO) = mrcRolePick tF tO st.numFollowers st.numObservers := by
      have := hrp; rw [RolePick, if_neg hmode] at this; exact this
    rcases h.roles_mrc hmode with ⟨hshape, hle, hfull⟩
    by_cases hF : st.numFollowers < tF
    · have hO0 : st.numObservers = 0 := by
        by_contra hO
        have := hfull (Nat.pos_of_ne_zero hO)
        omega
      have hr' : r = ReplicaRole.Follower ∧ nF = st.numFollowers + 1 ∧ nO = st.numObservers := by
        rw [mrcRolePick, if_pos hF] at hr
        exact ⟨congrArg Prod.fst hr, congrArg (Prod.fst ∘ Prod.snd) hr,
          congrArg (Prod.snd ∘ Prod.snd) hr⟩
      refine ⟨?_, by show nF ≤ tF; omega, by show 0 < nO → nF = tF; simp [hr'.2.2, hO0]⟩
      rw [List.map_append, hshape, hr'.1, hr'.2.1, hr'.2.2, hO0]
      simp [List.replicate_succ']
    · have hr' : r = ReplicaRole.Observer ∧ nF = st.numFollowers ∧ nO = st.numObservers + 1 := by
        rw [mrcRolePick, if_neg hF] at hr
        by_cases hO : st.numObservers < tO
        · rw [if_pos hO] at hr
          exact ⟨congrArg Prod.fst hr, congrArg (Prod.fst ∘ Prod.snd) hr,
            congrArg (Prod.snd ∘ Prod.snd) hr⟩
        · rw [if_neg hO] at hr
          exact ⟨congrArg Prod.fst hr, congrArg (Prod.fst ∘ Prod.snd) hr,
            congrArg (Prod.snd ∘ Prod.snd) hr⟩
      refine ⟨?_, by show nF ≤ tF; omega, by show 0 < nO → nF = tF; intro; omega⟩
      rw [List.map_append, hshape, hr'.1, hr'.2.1, hr'.2.2]
      simp [List.replicate_succ', List.append_assoc]
  · have hple := h.placed_le
    show (((st.replicasPlaced + 1 : Nat)) : Int) ≤ max cfg.replicationFactor 1
    push_cast at hple ⊢
    omega

theorem PassInv.foldl {cfg : PlacementConfig} {dcs0 : List DCInfo}
    {pid tF tO leaderID n : Nat} {f : PassState → Nat → PassState}
    (hsh : StepShape cfg dcs0 pid tF tO f) :
    ∀ (l : List Nat), (∀ b ∈ l, b < n) → ∀ (st : PassState),
      PassInv cfg tF pid leaderID n st → PassInv cfg tF pid leaderID n (l.foldl f st) := by
  intro l
  induction l with
  | nil => intro _ st h; exact h
  | cons b l ih =>
    intro hl st h
    exact ih (fun x hx => hl x (List.mem_cons_of_mem _ hx))
      (f st b) (h.step hsh (hl b (List.mem_cons_self _ _)))

/-! ### Completion: a pass with no zone restriction assigns every broker
it can, until the replication factor is reached -/

/-- A step makes progress on an eligible broker: below the replication
factor, not yet assigned and locatable, the broker ends up assigned. -/
def StepProgress (cfg : PlacementConfig) (dcs0 : List DCInfo)
    (f : PassState → Nat → PassState) : Prop :=
  ∀ st b, ¬ cfg.replicationFactor ≤ (st.replicasPlaced : Int) → b ∉ st.assignedB →
    (∃ d, findBroker b dcs0 = some d) → b ∈ (f st b).assignedB

theorem pass2Step_progress (cfg : PlacementConfig) (dcs0 : List DCInfo)
    (pid tF tO : Nat) :
    StepProgress cfg dcs0 (pass2Step cfg dcs0 pid tF tO) := by
  intro st b hdone hmem ⟨d, hfb⟩
  simp [pass2Step, hdone, hmem, hfb, placeReplica]

/-- In single-cluster mode pass 1 has no zone restriction either. -/
theorem pass1Step_progress_single (cfg : PlacementConfig) (dcs0 : List DCInfo)
    (l : List Nat) (pid tF tO : Nat)
    (hmode : cfg.clusterType = ClusterType.SingleCluster) :
    StepProgress cfg dcs0 (pass1Step cfg dcs0 l pid tF tO) := by
  intro st b hdone hmem ⟨d, hfb⟩
  have hpl : placeInThisDCB cfg dcs0 l st.assignedB st.assignedD d = true := by
    rw [placeInThisDCB, if_neg]
    simp [hmode]
  simp [pass1Step, hdone, hmem, hfb, hpl, placeReplica]

theorem foldl_complete {cfg : PlacementConfig} {dcs0 : List DCInfo}
    {pid tF tO : Nat} {f : PassState → Nat → PassState}
    (hsh : StepShape cfg dcs0 pid tF tO f) (hpr : StepProgress cfg dcs0 f) :
    ∀ (l : List Nat), (∀ b ∈ l, ∃ d, findBroker b dcs0 = some d) →
      ∀ (st : PassState),
        cfg.replicationFactor ≤ (((l.foldl f st).replicasPlaced : Nat) : Int) ∨
          ∀ b ∈ l, b ∈ (l.foldl f st).assignedB := by
  intro l
  induction l with
  | nil => intro _ st; right; simp
  | cons c l ih =>
    intro hfb st
    rw [List.foldl_cons]
    have hc : c ∈ (f st c).assignedB ∨
        cfg.replicationFactor ≤ ((f st c).replicasPlaced : Int) := by
      by_cases hdone : cfg.replicationFactor ≤ (st.replicasPlaced : Int)
      · right
        exact le_trans hdone (by exact_mod_cast Int.ofNat_le.mpr (step_replicasPlaced_le hsh st c))
      by_cases hmem : c ∈ st.assignedB
      · exact Or.inl (step_assignedB_subset hsh st c hmem)
      · exact Or.inl (hpr st c hdone hmem (hfb c (List.mem_cons_self _ _)))
    rcases ih (fun b hb => hfb b (List.mem_cons_of_mem _ hb)) (f st c) with hdone' | hall
    · exact Or.inl hdone'
    rcases hc with hc | hc
    · right
      intro b hb
      rcases List.mem_cons.mp hb with hbc | hb'
      · rw [hbc]
        exact foldl_assignedB_subset hsh l (f st c) hc
      · exact hall b hb'
    · left
      exact le_trans hc (by exact_mod_cast Int.ofNat_le.mpr (foldl_replicasPlaced_le hsh l (f st c)))

/-! ### Consequences of the invariant and the per-partition specification -/

theorem PassInv.card_assignedB {cfg : PlacementConfig} {tF pid leaderID n : Nat}
    {st : PassState} (h : PassInv cfg tF pid leaderID n st) :
    st.assignedB.card = st.replicasPlaced := by
  rw [h.assignedB_eq, List.toFinset_card_of_nodup h.brokers_nodup,
    List.length_map, h.length_eq]

theorem PassInv.replicasPlaced_le_n {cfg : PlacementConfig} {tF pid leaderID n : Nat}
    {st : PassState} (h : PassInv cfg tF pid leaderID n st) :
    st.replicasPlaced ≤ n := by
  have hsub : st.assignedB ⊆ Finset.range n := by
    rw [h.assignedB_eq]
    intro x hx
    rw [List.mem_toFinset, List.mem_map] at hx
    rcases hx with ⟨e, he, rfl⟩
    exact Finset.mem_range.mpr (h.brokers_lt e he)
  have hcard := Finset.card_le_card hsub
  rw [h.card_assignedB] at hcard
  simpa using hcard

/-- The invariant holds right after the leader is assigned. -/
theorem leaderState_inv (cfg : PlacementConfig) (tF pid leaderID dcID n : Nat)
    (hL : leaderID < n) :
    PassInv cfg tF pid leaderID n (leaderState leaderID pid dcID) := by
  refine ⟨?_, ?_, ?_, ?_, ?_, ?_, ?_, ?_, ?_⟩
  · simp [leaderState]
  · simp [leaderState]
  · intro e he; simp [leaderState] at he; rw [he]; exact hL
  · intro e he; simp [leaderState] at he; rw [he]
  · simp [leaderState]
  · simp [leaderState]
  · intro _; simp [leaderState]
  · intro _; exact ⟨by simp [leaderState], by simp [leaderState], by simp [leaderState]⟩
  · show ((1 : Nat) : Int) ≤ max cfg.replicationFactor 1
    simp

/-- The invariant is preserved through both passes. -/
theorem runPasses_inv (cfg : PlacementConfig) (D B pid leaderID : Nat)
    (shuffled : List Nat) (st0 : PassState)
    (hmem : ∀ b ∈ shuffled, b < D * B)
    (hinv : PassInv cfg (targetFollowersOf cfg) pid leaderID (D * B) st0) :
    PassInv cfg (targetFollowersOf cfg) pid leaderID (D * B)
      (runPasses cfg (initDCsOf D B) shuffled pid st0) := by
  rw [runPasses]
  have hinv1 := PassInv.foldl (pass1Step_shape cfg (initDCsOf D B) shuffled pid
    (targetFollowersOf cfg) (targetObserversOf cfg)) shuffled hmem st0 hinv
  split
  · rename_i hif
    have hmode : cfg.clusterType ≠ ClusterType.SingleCluster := by
      rw [hif.1]; intro h; exact ClusterType.noConfusion h
    exact PassInv.foldl (pass2Step_shape cfg (initDCsOf D B) pid
      (targetFollowersOf cfg) (targetObserversOf cfg) hmode) shuffled hmem _ hinv1
  · exact hinv1

/-- The final `replicasPlaced` of a partition is exactly
`min RF totalBrokers` (provided `RF >= 1`, which validation guarantees). -/
theorem runPasses_count (cfg : PlacementConfig) (D B pid leaderID : Nat)
    (shuffled : List Nat) (st0 : PassState)
    (hperm : shuffled.Perm (allBrokerIDsOf D B))
    (hinv : PassInv cfg (targetFollowersOf cfg) pid leaderID (D * B) st0)
    (hrf : 1 ≤ cfg.replicationFactor) :
    (runPasses cfg (initDCsOf D B) shuffled pid st0).replicasPlaced =
      min cfg.replicationFactor.toNat (D * B) := by
  have hmem : ∀ b ∈ shuffled, b < D * B := by
    intro b hb
    have := hperm.mem_iff.mp hb
    rw [allBrokerIDsOf_eq_range] at this
    exact List.mem_range.mp this
  have hcov : ∀ x, x < D * B → x ∈ shuffled := by
    intro x hx
    rw [hperm.mem_iff, allBrokerIDsOf_eq_range]
    exact List.mem_range.mpr hx
  have hfbs : ∀ b ∈ shuffled, ∃ d, findBroker b (initDCsOf D B) = some d :=
    fun b hb => findBroker_initDCsOf_isSome (hmem b hb)
  have hsh1 := pass1Step_shape cfg (initDCsOf D B) shuffled pid
    (targetFollowersOf cfg) (targetObserversOf cfg)
  have hinv1 := PassInv.foldl hsh1 shuffled hmem st0 hinv
  rw [runPasses]
  split
  · rename_i hif
    have hmode : cfg.clusterType ≠ ClusterType.SingleCluster := by
      rw [hif.1]; intro h; exact ClusterType.noConfusion h
    have hsh2 := pass2Step_shape cfg (initDCsOf D B) pid
      (targetFollowersOf cfg) (targetObserversOf cfg) hmode
    set st1 := shuffled.foldl (pass1Step cfg (initDCsOf D B) shuffled pid
      (targetFollowersOf cfg) (targetObserversOf cfg)) st0 with hst1
    have hinv2 := PassInv.foldl hsh2 shuffled hmem st1 hinv1
    have hub : (shuffled.foldl (pass2Step cfg (initDCsOf D B) pid
        (targetFollowersOf cfg) (targetObserversOf cfg)) st1).replicasPlaced ≤ D * B :=
      hinv2.replicasPlaced_le_n
    have hple := hinv2.placed_le
    rcases foldl_complete hsh2 (pass2Step_progress cfg (initDCsOf D B) pid
        (targetFollowersOf cfg) (targetObserversOf cfg)) shuffled hfbs st1 with hA | hB
    · omega
    · have hge : D * B ≤ (shuffled.foldl (pass2Step cfg (initDCsOf D B) pid
          (targetFollowersOf cfg) (targetObserversOf cfg)) st1).replicasPlaced := by
        have hsub : Finset.range (D * B) ⊆ (shuffled.foldl
            (pass2Step cfg (initDCsOf D B) pid
              (targetFollowersOf cfg) (targetObserversOf cfg)) st1).assignedB := by
          intro x hx
          exact hB x (hcov x (Finset.mem_range.mp hx))
        have hcard := Finset.card_le_card hsub
        rw [hinv2.card_assignedB] at hcard
        simpa using hcard
      omega
  · rename_i hif
    set st1 := shuffled.foldl (pass1Step cfg (initDCsOf D B) shuffled pid
      (targetFollowersOf cfg) (targetObserversOf cfg)) st0 with hst1
    have hub : st1.replicasPlaced ≤ D * B := hinv1.replicasPlaced_le_n
    have hple := hinv1.placed_le
    cases hct : cfg.clusterType with
    | MRC =>
      have : ¬ (st1.replicasPlaced : Int) < cfg.replicationFactor := by
        intro hlt
        exact hif ⟨hct, hlt⟩
      omega
    | SingleCluster =>
      rcases foldl_complete hsh1 (pass1Step_progress_single cfg (initDCsOf D B)
          shuffled pid (targetFollowersOf cfg) (targetObserversOf cfg) hct)
          shuffled hfbs st0 with hA | hB
      · rw [← hst1] at hA
        omega
      · rw [← hst1] at hB
        have hge : D * B ≤ st1.replicasPlaced := by
          have hsub : Finset.range (D * B) ⊆ st1.assignedB := by
            intro x hx
            exact hB x (hcov x (Finset.mem_range.mp hx))
          have hcard := Finset.card_le_card hsub
          rw [hinv1.card_assignedB] at hcard
          simpa using hcard
        omega

/-- Full specification of one partition's entries for any valid shuffle:
the entries are the entries of a state satisfying the invariant, with
leader `allBrokerIDs[p mod totalBrokers] = p mod totalBrokers`, and whose
final `replicasPlaced` is `min RF totalBrokers`. -/
theorem partitionEntries_spec (cfg : PlacementConfig) (D B p : Nat)
    (shuffled : List Nat) (hn : 0 < D * B)
    (hperm : shuffled.Perm (allBrokerIDsOf D B)) :
    ∃ st : PassState,
      partitionEntries cfg D B shuffled p = st.entries ∧
      PassInv cfg (targetFollowersOf cfg) (p + 1) (p % (D * B)) (D * B) st ∧
      (1 ≤ cfg.replicationFactor →
        st.replicasPlaced = min cfg.replicationFactor.toNat (D * B)) := by
  have hmod : p % (D * B) < D * B := Nat.mod_lt _ hn
  have hmem : ∀ b ∈ shuffled, b < D * B := by
    intro b hb
    have := hperm.mem_iff.mp hb
    rw [allBrokerIDsOf_eq_range] at this
    exact List.mem_range.mp this
  rcases findBroker_initDCsOf_isSome hmod with ⟨d, hd⟩
  have hlead : (allBrokerIDsOf D B).getD (p % totalBrokersOf D B) 0 = p % (D * B) :=
    getD_allBrokerIDsOf D B _ hmod
  refine ⟨runPasses cfg (initDCsOf D B) shuffled (p + 1)
    (leaderState (p % (D * B)) (p + 1) d), ?_, ?_, ?_⟩
  · rw [partitionEntries]
    simp only [hlead, hd]
  · exact runPasses_inv cfg D B (p + 1) (p % (D * B)) shuffled _ hmem
      (leaderState_inv cfg (targetFollowersOf cfg) (p + 1) (p % (D * B)) d (D * B) hmod)
  · intro hrf
    exact runPasses_count cfg D B (p + 1) (p % (D * B)) shuffled _ hperm
      (leaderState_inv cfg (targetFollowersOf cfg) (p + 1) (p % (D * B)) d (D * B) hmod) hrf

/-! ### From the event log to topology-level counts -/

theorem replicasFor_filter (log : List Entry) (b : Nat) (q : ReplicaInfo → Bool) :
    ((replicasFor log b).filter q).length =
      (log.filter (fun e => decide (e.broker = b) && q ⟨e.partition, e.role⟩)).length := by
  induction log with
  | nil => rfl
  | cons e log ih =>
    simp only [replicasFor] at ih ⊢
    rw [List.filterMap_cons, List.filter_cons]
    by_cases hb : e.broker = b
    · rw [if_pos hb]
      by_cases hq : q ⟨e.partition, e.role⟩ = true
      · rw [List.filter_cons, if_pos hq, if_pos (by simp [hb, hq])]
        simp [ih]
      · rw [List.filter_cons, if_neg hq, if_neg (by simp [hb, hq])]
        exact ih
    · rw [if_neg hb, if_neg (by simp [hb])]
      exact ih

theorem mem_replicasFor {log : List Entry} {b : Nat} {r : ReplicaInfo} :
    r ∈ replicasFor log b ↔ (⟨b, r.partitionID, r.role⟩ : Entry) ∈ log := by
  rw [replicasFor, List.mem_filterMap]
  constructor
  · rintro ⟨e, he, hfe⟩
    by_cases hb : e.broker = b
    · rw [if_pos hb] at hfe
      have : r = ⟨e.partition, e.role⟩ := (Option.some_inj.mp hfe).symm
      rw [this]
      have : e = ⟨b, e.partition, e.role⟩ := by
        cases e; simp_all
      rw [← this]
      exact he
    · rw [if_neg hb] at hfe
      exact Option.noConfusion hfe
  · intro he
    exact ⟨⟨b, r.partitionID, r.role⟩, he, by simp⟩

/-- Summing a per-broker quantity over the skeleton topology is summing it
over the global broker id list. -/
theorem sum_initDCsOf (D B : Nat) (f : Nat → Nat) :
    ((initDCsOf D B).map (fun dc => (dc.brokers.map (fun br => f br.id)).sum)).sum =
      ((allBrokerIDsOf D B).map f).sum := by
  simp only [initDCsOf, allBrokerIDsOf, List.flatMap_def, List.map_flatten,
    List.sum_flatten, List.map_map]
  congr 1
  refine List.map_congr_left ?_
  intro d _
  have hcomp : ((fun br => f br.id) ∘ fun b => ({ id := b, replicas := [] } : BrokerInfo)) = f := by
    funext x; rfl
  simp only [Function.comp_apply]
  rw [List.map_map, hcomp]

theorem list_map_range_sum (f : Nat → Nat) (n : Nat) :
    ((List.range n).map f).sum = ∑ i ∈ Finset.range n, f i := by
  induction n with
  | zero => simp
  | succ n ih =>
    rw [List.range_succ, List.map_append, List.sum_append, Finset.sum_range_succ, ih]
    simp

/-- Summing, over all broker ids, the number of log entries on that broker
satisfying `P` counts every `P`-entry exactly once. -/
theorem sum_count_filter (P : Entry → Bool) (n : Nat) :
    ∀ log : List Entry, (∀ e ∈ log, e.broker < n) →
      (∑ b ∈ Finset.range n,
        (log.filter (fun e => decide (e.broker = b) && P e)).length) =
      (log.filter P).length := by
  intro log
  induction log with
  | nil => intro _; simp
  | cons e log ih =>
    intro hlt
    have hlt' : ∀ x ∈ log, x.broker < n :=
      fun x hx => hlt x (List.mem_cons_of_mem _ hx)
    have hsplit : ∀ b, ((e :: log).filter
        (fun x => decide (x.broker = b) && P x)).length
        = (if e.broker = b ∧ P e = true then 1 else 0)
          + (log.filter (fun x => decide (x.broker = b) && P x)).length := by
      intro b
      rw [List.filter_cons]
      by_cases hc : e.broker = b ∧ P e = true
      · rw [if_pos (by simp [hc.1, hc.2]), if_pos hc]
        simp [Nat.add_comm]
      · rw [if_neg (by simpa using hc), if_neg hc]
        simp
    simp only [hsplit]
    rw [Finset.sum_add_distrib, ih hlt', List.filter_cons]
    by_cases hP : P e = true
    · rw [if_pos hP]
      simp only [hP, and_true]
      rw [Finset.sum_ite_eq (Finset.range n) e.broker (fun _ => 1),
        if_pos (Finset.mem_range.mpr (hlt e (List.mem_cons_self _ _)))]
      simp [Nat.add_comm]
    · rw [if_neg hP]
      simp [hP]

/-- Summing, over the skeleton, per-broker counts of log entries
satisfying `P` yields the total count of `P`-entries. -/
theorem sum_skeleton_filter (D B : Nat) (P : Entry → Bool) (log : List Entry)
    (hlt : ∀ e ∈ log, e.broker < D * B) :
    ((initDCsOf D B).map (fun dc => (dc.brokers.map (fun br =>
      (log.filter (fun e => decide (e.broker = br.id) && P e)).length)).sum)).sum =
    (log.filter P).length := by
  refine Eq.trans (sum_initDCsOf D B (fun x =>
      (log.filter (fun e => decide (e.broker = x) && P e)).length)) ?_
  rw [allBrokerIDsOf_eq_range, list_map_range_sum]
  exact sum_count_filter P (D * B) log hlt

/-- Topology-level role count equals the log-level count, provided every
logged broker id exists (once) in the skeleton. -/
theorem countRole_buildTopology (D B : Nat) (log : List Entry)
    (hlt : ∀ e ∈ log, e.broker < D * B) (pid : Nat) (role : ReplicaRole) :
    countRole (buildTopology D B log) pid role =
      (log.filter (fun e =>
        decide (e.partition = pid) && decide (e.role = role))).length := by
  have h1 : countRole (buildTopology D B log) pid role =
      ((initDCsOf D B).map (fun dc => (dc.brokers.map (fun br =>
        (log.filter (fun e => decide (e.broker = br.id) &&
          (decide (e.partition = pid) && decide (e.role = role)))).length)).sum)).sum := by
    rw [countRole, buildTopology, List.map_map]
    congr 1
    refine List.map_congr_left ?_
    intro dc _
    simp only [Function.comp, List.map_map]
    congr 1
    refine List.map_congr_left ?_
    intro br _
    simp only [Function.comp]
    exact replicasFor_filter log br.id _
  exact Eq.trans h1 (sum_skeleton_filter D B
    (fun e => decide (e.partition = pid) && decide (e.role = role)) log hlt)

/-- Topology-level replica count (any role) equals the log-level count. -/
theorem countReplicas_buildTopology (D B : Nat) (log : List Entry)
    (hlt : ∀ e ∈ log, e.broker < D * B) (pid : Nat) :
    countReplicas (buildTopology D B log) pid =
      (log.filter (fun e => decide (e.partition = pid))).length := by
  have h1 : countReplicas (buildTopology D B log) pid =
      ((initDCsOf D B).map (fun dc => (dc.brokers.map (fun br =>
        (log.filter (fun e => decide (e.broker = br.id) &&
          decide (e.partition = pid))).length)).sum)).sum := by
    rw [countReplicas, buildTopology, List.map_map]
    congr 1
    refine List.map_congr_left ?_
    intro dc _
    simp only [Function.comp, List.map_map]
    congr 1
    refine List.map_congr_left ?_
    intro br _
    simp only [Function.comp]
    exact replicasFor_filter log br.id _
  exact Eq.trans h1 (sum_skeleton_filter D B
    (fun e => decide (e.partition = pid)) log hlt)

/-! ### Decomposing the global log by partition -/

/-- Entries of one partition all carry that partition's id. -/
theorem partitionEntries_partition (cfg : PlacementConfig) (D B p : Nat)
    (shuffled : List Nat) (hn : 0 < D * B)
    (hperm : shuffled.Perm (allBrokerIDsOf D B)) :
    ∀ e ∈ partitionEntries cfg D B shuffled p, e.partition = p + 1 := by
  rcases partitionEntries_spec cfg D B p shuffled hn hperm with ⟨st, heq, hinv, _⟩
  rw [heq]
  exact hinv.partition_eq

/-- Entries of one partition sit on existing brokers. -/
theorem partitionEntries_brokers_lt (cfg : PlacementConfig) (D B p : Nat)
    (shuffled : List Nat) (hn : 0 < D * B)
    (hperm : shuffled.Perm (allBrokerIDsOf D B)) :
    ∀ e ∈ partitionEntries cfg D B shuffled p, e.broker < D * B := by
  rcases partitionEntries_spec cfg D B p shuffled hn hperm with ⟨st, heq, hinv, _⟩
  rw [heq]
  exact hinv.brokers_lt

theorem placementLog_brokers_lt (cfg : PlacementConfig) (D B : Nat)
    (shuffles : Nat → List Nat) (hn : 0 < D * B)
    (hperm : ∀ q, (shuffles q).Perm (allBrokerIDsOf D B)) :
    ∀ e ∈ placementLog cfg D B shuffles, e.broker < D * B := by
  intro e he
  rw [placementLog, List.mem_flatMap] at he
  rcases he with ⟨q, _, he⟩
  exact partitionEntries_brokers_lt cfg D B q (shuffles q) hn (hperm q) e he

/-- A `flatMap` over distinct indices where all groups but one are empty
collapses to that one group. -/
theorem flatMap_eq_of_single {α β : Type} (g : α → List β) :
    ∀ (l : List α), l.Nodup → ∀ p ∈ l, (∀ q ∈ l, q ≠ p → g q = []) →
      l.flatMap g = g p := by
  intro l
  induction l with
  | nil => intro _ p hp; exact absurd hp (List.not_mem_nil p)
  | cons a l ih =>
    intro hnd p hp hq
    rw [List.flatMap_cons]
    rcases List.mem_cons.mp hp with hap | hpl
    · have hrest : l.flatMap g = [] := by
        rw [List.flatMap_eq_nil_iff]
        intro x hx
        refine hq x (List.mem_cons_of_mem _ hx) ?_
        intro hxp
        rw [hxp] at hx
        rw [hap] at hx
        exact (List.nodup_cons.mp hnd).1 hx
      rw [hrest, List.append_nil, ← hap]
    · have ha : g a = [] := by
        refine hq a (List.mem_cons_self _ _) ?_
        intro hap
        rw [hap] at hnd
        exact (List.nodup_cons.mp hnd).1 hpl
      rw [ha, List.nil_append]
      exact ih (List.nodup_cons.mp hnd).2 p hpl
        (fun q hq' hne => hq q (List.mem_cons_of_mem _ hq') hne)

/-- Filtering the global log with a condition only partition `p`'s entries
can satisfy sees only partition `p`'s entries. -/
theorem placementLog_filter (cfg : PlacementConfig) (D B : Nat)
    (shuffles : Nat → List Nat) (hn : 0 < D * B)
    (hperm : ∀ q, (shuffles q).Perm (allBrokerIDsOf D B))
    (p : Nat) (hp : p < cfg.numPartitions.toNat) (R : Entry → Bool)
    (hR : ∀ e, R e = true → e.partition = p + 1) :
    (placementLog cfg D B shuffles).filter R =
      (partitionEntries cfg D B (shuffles p) p).filter R := by
  rw [placementLog, List.filter_flatMap]
  exact flatMap_eq_of_single _ (List.range cfg.numPartitions.toNat)
    (List.nodup_range _) p (List.mem_range.mpr hp)
    (fun q _ hne => by
      rw [List.filter_eq_nil_iff]
      intro e he
      have hpe := partitionEntries_partition cfg D B q (shuffles q) hn (hperm q) e he
      intro hRe
      have := hR e hRe
      rw [hpe] at this
      exact hne (Nat.succ_injective this))

/-- Filtering the global log with a condition no produced entry satisfies
yields nothing. -/
theorem placementLog_filter_nil (cfg : PlacementConfig) (D B : Nat)
    (shuffles : Nat → List Nat) (hn : 0 < D * B)
    (hperm : ∀ q, (shuffles q).Perm (allBrokerIDsOf D B))
    (R : Entry → Bool)
    (hR : ∀ e, R e = true → ∀ p < cfg.numPartitions.toNat, e.partition ≠ p + 1) :
    (placementLog cfg D B shuffles).filter R = [] := by
  rw [placementLog, List.filter_flatMap, List.flatMap_eq_nil_iff]
  intro q hq
  rw [List.filter_eq_nil_iff]
  intro e he
  have hpe := partitionEntries_partition cfg D B q (shuffles q) hn (hperm q) e he
  intro hRe
  exact hR e hRe q (List.mem_range.mp hq) hpe

/-! ### Role counts inside one partition -/

theorem length_filter_role (entries : List Entry) (role : ReplicaRole) :
    (entries.filter (fun e => decide (e.role = role))).length =
      ((entries.map Entry.role).filter (fun r => decide (r = role))).length := by
  induction entries with
  | nil => rfl
  | cons e l ih =>
    rw [List.map_cons, List.filter_cons, List.filter_cons]
    by_cases h : e.role = role
    · rw [if_pos (by simp [h]), if_pos (by simp [h])]
      simp [ih]
    · rw [if_neg (by simp [h]), if_neg (by simp [h])]
      exact ih

/-- In MRC mode the per-partition role tallies are: one leader,
`numFollowers` followers, `numObservers` observers. -/
theorem PassInv.role_counts {cfg : PlacementConfig} {tF pid leaderID n : Nat}
    {st : PassState} (h : PassInv cfg tF pid leaderID n st)
    (hmode : cfg.clusterType ≠ ClusterType.SingleCluster) :
    (st.entries.filter (fun e => decide (e.role = ReplicaRole.Leader))).length = 1 ∧
    (st.entries.filter (fun e => decide (e.role = ReplicaRole.Follower))).length =
      st.numFollowers ∧
    (st.entries.filter (fun e => decide (e.role = ReplicaRole.Observer))).length =
      st.numObservers := by
  rcases h.roles_mrc hmode with ⟨hs, _, _⟩
  refine ⟨?_, ?_, ?_⟩ <;> rw [length_filter_role, hs] <;>
    simp [List.filter_append, List.filter_replicate]

/-- In single-cluster mode: one leader, everything else a follower, and no
observer at all. -/
theorem PassInv.role_counts_single {cfg : PlacementConfig} {tF pid leaderID n : Nat}
    {st : PassState} (h : PassInv cfg tF pid leaderID n st)
    (hmode : cfg.clusterType = ClusterType.SingleCluster) :
    (st.entries.filter (fun e => decide (e.role = ReplicaRole.Leader))).length = 1 ∧
    (∀ e ∈ st.entries, e.role ≠ ReplicaRole.Observer) := by
  have hs := h.roles_single hmode
  constructor
  · rw [length_filter_role, hs]
    simp [List.filter_replicate]
  · intro e he hobs
    have : e.role ∈ st.entries.map Entry.role := List.mem_map_of_mem _ he
    rw [hs, hobs] at this
    rcases List.mem_cons.mp this with h1 | h1
    · exact ReplicaRole.noConfusion h1
    · exact ReplicaRole.noConfusion (List.eq_of_mem_replicate h1)

/-- The only entry of a partition with role Leader is the head entry. -/
theorem PassInv.leader_entry_eq {cfg : PlacementConfig} {tF pid leaderID n : Nat}
    {st : PassState} (h : PassInv cfg tF pid leaderID n st) :
    ∀ e ∈ st.entries, e.role = ReplicaRole.Leader →
      e = ⟨leaderID, pid, ReplicaRole.Leader⟩ := by
  intro e he hrole
  cases hent : st.entries with
  | nil => rw [hent] at he; exact absurd he (List.not_mem_nil e)
  | cons a tail =>
    have hhd := h.head_eq
    rw [hent] at hhd he
    simp only [List.head?_cons, Option.some_inj] at hhd
    rcases List.mem_cons.mp he with hea | htail
    · rw [hea, hhd]
    · exfalso
      have hrmem : e.role ∈ tail.map Entry.role := List.mem_map_of_mem _ htail
      by_cases hmode : cfg.clusterType = ClusterType.SingleCluster
      · have hs := h.roles_single hmode
        rw [hent, List.map_cons] at hs
        have htl := (List.cons_eq_cons.mp hs).2
        rw [htl] at hrmem
        have := List.eq_of_mem_replicate hrmem
        rw [hrole] at this
        exact ReplicaRole.noConfusion this
      · rcases h.roles_mrc hmode with ⟨hs, _, _⟩
        rw [hent, List.map_cons] at hs
        have htl := (List.cons_eq_cons.mp hs).2
        rw [htl] at hrmem
        rcases List.mem_append.mp hrmem with h1 | h1 <;>
          · have := List.eq_of_mem_replicate h1
            rw [hrole] at this
            exact ReplicaRole.noConfusion this

/-- The head entry is a member. -/
theorem PassInv.leader_entry_mem {cfg : PlacementConfig} {tF pid leaderID n : Nat}
    {st : PassState} (h : PassInv cfg tF pid leaderID n st) :
    (⟨leaderID, pid, ReplicaRole.Leader⟩ : Entry) ∈ st.entries := by
  cases hent : st.entries with
  | nil =>
    have hhd := h.head_eq
    rw [hent] at hhd
    simp at hhd
  | cons a tail =>
    have hhd := h.head_eq
    rw [hent] at hhd
    simp only [List.head?_cons, Option.some_inj] at hhd
    rw [← hhd]
    exact List.mem_cons_self _ _

/-! ### Result-level counting -/

theorem countRole_result (cfg : PlacementConfig) (D B : Nat)
    (shuffles : Nat → List Nat) (hn : 0 < D * B)
    (hperm : ∀ q, (shuffles q).Perm (allBrokerIDsOf D B))
    (p : Nat) (hp : p < cfg.numPartitions.toNat) (role : ReplicaRole) :
    countRole (buildTopology D B (placementLog cfg D B shuffles)) (p + 1) role =
      ((partitionEntries cfg D B (shuffles p) p).filter
        (fun e => decide (e.role = role))).length := by
  rw [countRole_buildTopology D B _ (placementLog_brokers_lt cfg D B shuffles hn hperm)]
  rw [placementLog_filter cfg D B shuffles hn hperm p hp _
    (fun e he => by simp at he; exact he.1)]
  have := List.filter_congr (l := partitionEntries cfg D B (shuffles p) p)
    (p := fun e => decide (e.partition = p + 1) && decide (e.role = role))
    (q := fun e => decide (e.role = role))
    (fun e he => by
      simp [partitionEntries_partition cfg D B p (shuffles p) hn (hperm p) e he])
  rw [this]

theorem countReplicas_result (cfg : PlacementConfig) (D B : Nat)
    (shuffles : Nat → List Nat) (hn : 0 < D * B)
    (hperm : ∀ q, (shuffles q).Perm (allBrokerIDsOf D B))
    (p : Nat) (hp : p < cfg.numPartitions.toNat) :
    countReplicas (buildTopology D B (placementLog cfg D B shuffles)) (p + 1) =
      (partitionEntries cfg D B (shuffles p) p).length := by
  rw [countReplicas_buildTopology D B _ (placementLog_brokers_lt cfg D B shuffles hn hperm)]
  rw [placementLog_filter cfg D B shuffles hn hperm p hp _
    (fun e he => by simpa using he)]
  rw [List.filter_eq_self.mpr]
  intro e he
  simp [partitionEntries_partition cfg D B p (shuffles p) hn (hperm p) e he]

/-! ### Valid requests and the shape of the result -/

/-- Validity of a placement request as guaranteed by the upstream
validation (spec §4.1/§6): positivity of every count, `minISR ≤ RF`, and
`RF ≤ totalBrokers`. -/
structure ValidConfig (cfg : PlacementConfig) : Prop where
  rf_pos : 1 ≤ cfg.replicationFactor
  misr_pos : 1 ≤ cfg.minInSyncReplicas
  misr_le_rf : cfg.minInSyncReplicas ≤ cfg.replicationFactor
  parts_pos : 1 ≤ cfg.numPartitions
  brokers_pos : 1 ≤ cfg.numBrokers
  dcs_pos : 1 ≤ cfg.numDCs
  rf_le_total : cfg.replicationFactor ≤
    (totalBrokersOf (numDCsEff cfg) cfg.numBrokers.toNat : Int)

theorem totalBrokers_pos (cfg : PlacementConfig)
    (hbr : 1 ≤ cfg.numBrokers) (hdc : 1 ≤ cfg.numDCs) :
    0 < totalBrokersOf (numDCsEff cfg) cfg.numBrokers.toNat := by
  rw [totalBrokersOf, numDCsEff]
  split
  · simpa using (by omega : 0 < cfg.numBrokers.toNat)
  · exact Nat.mul_pos (by omega) (by omega)

theorem mrcRecommendationOf_isSome (cfg : PlacementConfig)
    (h : cfg.numDCs ≠ 0 ∨ cfg.replicationFactor ≤ cfg.numDCs) :
    ∃ r, mrcRecommendationOf cfg = some r := by
  rw [mrcRecommendationOf]
  by_cases hmode : cfg.clusterType = ClusterType.MRC
  · rw [if_pos hmode]
    by_cases hle : cfg.replicationFactor ≤ cfg.numDCs
    · exact ⟨_, by rw [if_pos hle]⟩
    · rcases h with h0 | h0
      · exact ⟨_, by rw [if_neg hle, if_neg h0]⟩
      · exact absurd h0 hle
  · rw [if_neg hmode]
    exact ⟨"", rfl⟩

/-- With at least one broker and a computable advisory, the engine returns
the topology built from the placement log. -/
theorem CalculatePlacement_eq_some (cfg : PlacementConfig) (shuffles : Nat → List Nat)
    (htot : 0 < totalBrokersOf (numDCsEff cfg) cfg.numBrokers.toNat)
    {r : String} (hr : mrcRecommendationOf cfg = some r) :
    CalculatePlacement cfg shuffles =
      some (buildTopology (numDCsEff cfg) cfg.numBrokers.toNat
        (placementLog cfg (numDCsEff cfg) cfg.numBrokers.toNat shuffles), r) := by
  simp only [CalculatePlacement, hr]
  rw [if_neg (by rw [length_allBrokerIDsOf]; omega), if_neg (by omega)]

/-- Any returned topology is the one built from the placement log, and the
returned advisory is the computed recommendation. -/
theorem result_topology (cfg : PlacementConfig) (shuffles : Nat → List Nat)
    {topo : List DCInfo} {adv : String}
    (htot : 0 < totalBrokersOf (numDCsEff cfg) cfg.numBrokers.toNat)
    (hres : CalculatePlacement cfg shuffles = some (topo, adv)) :
    topo = buildTopology (numDCsEff cfg) cfg.numBrokers.toNat
      (placementLog cfg (numDCsEff cfg) cfg.numBrokers.toNat shuffles) ∧
    mrcRecommendationOf cfg = some adv := by
  cases hr : mrcRecommendationOf cfg with
  | none =>
    rw [CalculatePlacement] at hres
    simp only [hr] at hres
    exact Option.noConfusion hres
  | some r =>
    have heq := CalculatePlacement_eq_some cfg shuffles htot hr
    rw [heq] at hres
    simp only [Option.some.injEq, Prod.mk.injEq] at hres
    exact ⟨hres.1.symm, by rw [hres.2]⟩

/-- Brokers of a built topology carry exactly the log's replicas for their
id. -/
theorem mem_buildTopology_replicas {D B : Nat} {log : List Entry}
    {dc : DCInfo} {br : BrokerInfo}
    (hdc : dc ∈ buildTopology D B log) (hbr : br ∈ dc.brokers) :
    br.replicas = replicasFor log br.id := by
  rw [buildTopology, List.mem_map] at hdc
  rcases hdc with ⟨dc0, _, rfl⟩
  simp only [List.mem_map] at hbr
  rcases hbr with ⟨br0, _, rfl⟩
  rfl

theorem countP_le_one_of_nodup {l : List Nat} (h : l.Nodup) (b : Nat) :
    l.countP (fun x => decide (x = b)) ≤ 1 := by
  induction l with
  | nil => simp
  | cons a l ih =>
    rw [List.countP_cons]
    by_cases hab : a = b
    · have hbl : b ∉ l := hab ▸ (List.nodup_cons.mp h).1
      have hz : l.countP (fun x => decide (x = b)) = 0 := by
        rw [List.countP_eq_zero]
        intro x hx
        simp only [decide_eq_true_eq]
        intro hxb
        rw [hxb] at hx
        exact hbl hx
      simp [hz, hab]
    · simp only [hab, decide_eq_true_eq]
      simpa [hab] using ih (List.nodup_cons.mp h).2

/-! ### The claims -/

/-- C1: for every valid placement request (RF ≥ 1, minISR ≥ 1, minISR ≤ RF,
partitions ≥ 1, broker and zone counts ≥ 1, RF ≤ total brokers) and every
outcome of the per-partition shuffles, the returned topology contains, for
each partition id `1..P`, exactly one replica with role Leader, counted
across all brokers of all zones. -/
theorem claim_C1 (cfg : PlacementConfig) (shuffles : Nat → List Nat)
    (topo : List DCInfo) (adv : String)
    (hv : ValidConfig cfg)
    (hperm : ∀ q, (shuffles q).Perm
      (allBrokerIDsOf (numDCsEff cfg) cfg.numBrokers.toNat))
    (hres : CalculatePlacement cfg shuffles = some (topo, adv))
    (p : Nat) (hp : p < cfg.numPartitions.toNat) :
    countRole topo (p + 1) ReplicaRole.Leader = 1 := by
  have htot := totalBrokers_pos cfg hv.brokers_pos hv.dcs_pos
  obtain ⟨htopo, -⟩ := result_topology cfg shuffles htot hres
  rw [htopo, countRole_result cfg _ _ shuffles htot hperm p hp]
  rcases partitionEntries_spec cfg (numDCsEff cfg) cfg.numBrokers.toNat p
    (shuffles p) htot (hperm p) with ⟨st, heq, hinv, -⟩
  rw [heq]
  by_cases hmode : cfg.clusterType = ClusterType.SingleCluster
  · exact (hinv.role_counts_single hmode).1
  · exact (hinv.role_counts hmode).1

/-- C2: for every placement request with RF ≥ 1 and at least one broker
and zone, and every shuffle outcome, the number of replicas placed for
each partition `1..P` equals `min RF totalBrokers`; when additionally
`RF ≤ totalBrokers` (the validated precondition) it equals `RF` exactly. -/
theorem claim_C2 (cfg : PlacementConfig) (shuffles : Nat → List Nat)
    (topo : List DCInfo) (adv : String)
    (hrf : 1 ≤ cfg.replicationFactor)
    (hbr : 1 ≤ cfg.numBrokers) (hdc : 1 ≤ cfg.numDCs)
    (hperm : ∀ q, (shuffles q).Perm
      (allBrokerIDsOf (numDCsEff cfg) cfg.numBrokers.toNat))
    (hres : CalculatePlacement cfg shuffles = some (topo, adv))
    (p : Nat) (hp : p < cfg.numPartitions.toNat) :
    countReplicas topo (p + 1) = min cfg.replicationFactor.toNat
      (totalBrokersOf (numDCsEff cfg) cfg.numBrokers.toNat) ∧
    (cfg.replicationFactor ≤
        (totalBrokersOf (numDCsEff cfg) cfg.numBrokers.toNat : Int) →
      countReplicas topo (p + 1) = cfg.replicationFactor.toNat) := by
  have htot := totalBrokers_pos cfg hbr hdc
  obtain ⟨htopo, -⟩ := result_topology cfg shuffles htot hres
  rw [htopo, countReplicas_result cfg _ _ shuffles htot hperm p hp]
  rcases partitionEntries_spec cfg (numDCsEff cfg) cfg.numBrokers.toNat p
    (shuffles p) htot (hperm p) with ⟨st, heq, hinv, hcount⟩
  have hc := hcount hrf
  rw [heq, hinv.length_eq, hc]
  refine ⟨rfl, fun hle => ?_⟩
  simp only [totalBrokersOf] at hle
  push_cast at hle
  omega

/-- C3: for every valid placement request and shuffle outcome, no
`(broker, partition)` pair is duplicated: each broker's replica list in the
returned topology contains at most one replica for any partition id. -/
theorem claim_C3 (cfg : PlacementConfig) (shuffles : Nat → List Nat)
    (topo : List DCInfo) (adv : String)
    (hv : ValidConfig cfg)
    (hperm : ∀ q, (shuffles q).Perm
      (allBrokerIDsOf (numDCsEff cfg) cfg.numBrokers.toNat))
    (hres : CalculatePlacement cfg shuffles = some (topo, adv)) :
    ∀ dc ∈ topo, ∀ br ∈ dc.brokers, ∀ pid : Nat,
      (br.replicas.filter (fun r => decide (r.partitionID = pid))).length ≤ 1 := by
  have htot := totalBrokers_pos cfg hv.brokers_pos hv.dcs_pos
  obtain ⟨htopo, -⟩ := result_topology cfg shuffles htot hres
  intro dc hdc br hbr pid
  rw [htopo] at hdc
  rw [mem_buildTopology_replicas hdc hbr, replicasFor_filter]
  by_cases hpid : ∃ p < cfg.numPartitions.toNat, pid = p + 1
  · rcases hpid with ⟨p, hp, rfl⟩
    rw [placementLog_filter cfg _ _ shuffles htot hperm p hp _
      (fun e he => by simp at he; exact he.2)]
    rcases partitionEntries_spec cfg (numDCsEff cfg) cfg.numBrokers.toNat p
      (shuffles p) htot (hperm p) with ⟨st, heq, hinv, -⟩
    rw [heq]
    calc (st.entries.filter
          (fun e => decide (e.broker = br.id) && decide (e.partition = p + 1))).length
        = st.entries.countP
            (fun e => decide (e.broker = br.id) && decide (e.partition = p + 1)) :=
          (List.countP_eq_length_filter _ _).symm
      _ ≤ st.entries.countP (fun e => decide (e.broker = br.id)) :=
          List.countP_mono_left (fun e _ hh => by
            simp only [Bool.and_eq_true] at hh
            exact hh.1)
      _ = (st.entries.map Entry.broker).countP (fun x => decide (x = br.id)) :=
          (List.countP_map (fun x => decide (x = br.id)) Entry.broker st.entries).symm
      _ ≤ 1 := countP_le_one_of_nodup hinv.brokers_nodup br.id
  · rw [placementLog_filter_nil cfg _ _ shuffles htot hperm _
      (fun e he p hp => by
        simp only [Bool.and_eq_true, decide_eq_true_eq] at he
        intro hep
        exact hpid ⟨p, hp, by rw [← he.2, hep]⟩)]
    simp

/-- The Leader entries of the whole log for partition `p + 1` are exactly
the round-robin leader `p mod totalBrokers` — for the *insertion-order*
enumeration only: under an arbitrary map-iteration order the round robin
walks whatever list the runtime produced. -/
theorem leader_entry_log (cfg : PlacementConfig) (D B : Nat)
    (shuffles : Nat → List Nat) (hn : 0 < D * B)
    (hperm : ∀ q, (shuffles q).Perm (allBrokerIDsOf D B))
    (p : Nat) (hp : p < cfg.numPartitions.toNat) (b : Nat) :
    (⟨b, p + 1, ReplicaRole.Leader⟩ : Entry) ∈ placementLog cfg D B shuffles ↔
      b = p % (D * B) := by
  constructor
  · intro hmem
    rw [placementLog, List.mem_flatMap] at hmem
    rcases hmem with ⟨q, hq, hmem⟩
    have hqp : q = p := by
      have := partitionEntries_partition cfg D B q (shuffles q) hn (hperm q) _ hmem
      simpa using this.symm
    subst hqp
    rcases partitionEntries_spec cfg D B q (shuffles q) hn (hperm q) with
      ⟨st, heq, hinv, -⟩
    rw [heq] at hmem
    have := hinv.leader_entry_eq _ hmem rfl
    exact congrArg Entry.broker this
  · rintro rfl
    rcases partitionEntries_spec cfg D B p (shuffles p) hn (hperm p) with
      ⟨st, heq, hinv, -⟩
    rw [placementLog, List.mem_flatMap]
    refine ⟨p, List.mem_range.mpr hp, ?_⟩
    rw [heq]
    exact hinv.leader_entry_mem

/-- C4: the claim asserts a deterministic ascending round robin for the
leader — the broker at position `p mod totalBrokers` of the broker id list
in ascending id order, independent of any randomness.  The code instead
draws the leader from `allBrokerIDs`, a slice built by ranging over the
Go map `dcInfo.Brokers` (`placement.go` line 82), whose iteration order
is unspecified and deliberately randomised by the Go runtime; only the
shuffle of the *copy* is under `rand`, the base list itself already
depends on map order.  Witnessed here: with Single mode, 3 brokers,
4 partitions, RF 2, minISR 1, the admissible map order `[1, 0, 2]` for the
single DC's broker map makes the engine give partition 1 (index 0 in the
claim's numbering... stored id `1`) the leader broker `1`, while the
ascending list puts broker `0` at position `0 mod 3`, so broker `0` — the
leader the claim promises — carries no Leader replica of that partition.
The run completes normally (`some`), so this is reachable behaviour, not
a guarded path. -/
theorem claim_C4_code_bug :
    List.Perm [1, 0, 2] (dcBrokerIDs 3 0) ∧
    List.Perm [1, 0, 2] (allBrokerIDsWith (fun _ => [1, 0, 2]) 1) ∧
    CalculatePlacementWith (fun _ => [1, 0, 2])
        ⟨ClusterType.SingleCluster, 4, 2, 1, 3, 1⟩ (fun _ => [1, 0, 2]) =
      some (buildTopology 1 3
        (placementLogWith (fun _ => [1, 0, 2])
          ⟨ClusterType.SingleCluster, 4, 2, 1, 3, 1⟩ 1 3 (fun _ => [1, 0, 2])),
        "") ∧
    (⟨1, ReplicaRole.Leader⟩ : ReplicaInfo) ∈
      replicasFor (placementLogWith (fun _ => [1, 0, 2])
        ⟨ClusterType.SingleCluster, 4, 2, 1, 3, 1⟩ 1 3 (fun _ => [1, 0, 2])) 1 ∧
    (⟨1, ReplicaRole.Leader⟩ : ReplicaInfo) ∉
      replicasFor (placementLogWith (fun _ => [1, 0, 2])
        ⟨ClusterType.SingleCluster, 4, 2, 1, 3, 1⟩ 1 3 (fun _ => [1, 0, 2])) 0 ∧
    (allBrokerIDsOf 1 3).getD (0 % totalBrokersOf 1 3) 0 = 0 := by
  decide

/-- Sanity check for the order-parameterised engine: instantiating the
enumeration at the insertion order recovers `CalculatePlacement`
definitionally, so the approved theorems about the fixed-order form are
statements about one admissible run of the general one. -/
theorem CalculatePlacementWith_insertion_order (cfg : PlacementConfig)
    (shuffles : Nat → List Nat) :
    CalculatePlacementWith (dcBrokerIDs cfg.numBrokers.toNat) cfg shuffles =
      CalculatePlacement cfg shuffles := rfl

/-- C5: roles of the non-leader replicas are determined by assignment
order.  In Single mode no replica anywhere has role Observer.  In MRC
mode, for each partition the recorded role sequence is the Leader followed
by `k` Followers and then only Observers, where `k` is the follower target
`targetFollowers = max(0, minISR - 1)` capped by the number of non-leader
replicas (so any replica beyond the follower target, including the
fallback branch, is an Observer). -/
theorem claim_C5 (cfg : PlacementConfig) (shuffles : Nat → List Nat)
    (topo : List DCInfo) (adv : String)
    (hv : ValidConfig cfg)
    (hperm : ∀ q, (shuffles q).Perm
      (allBrokerIDsOf (numDCsEff cfg) cfg.numBrokers.toNat))
    (hres : CalculatePlacement cfg shuffles = some (topo, adv)) :
    (cfg.clusterType = ClusterType.SingleCluster →
      ∀ dc ∈ topo, ∀ br ∈ dc.brokers, ∀ r ∈ br.replicas,
        r.role ≠ ReplicaRole.Observer) ∧
    (cfg.clusterType = ClusterType.MRC →
      ∀ p, p < cfg.numPartitions.toNat →
        ∃ k m : Nat,
          (partitionEntries cfg (numDCsEff cfg) cfg.numBrokers.toNat
              (shuffles p) p).map Entry.role =
            ReplicaRole.Leader ::
              (List.replicate k ReplicaRole.Follower ++
               List.replicate m ReplicaRole.Observer) ∧
          k = min ((partitionEntries cfg (numDCsEff cfg) cfg.numBrokers.toNat
              (shuffles p) p).length - 1) (targetFollowersOf cfg) ∧
          m = (partitionEntries cfg (numDCsEff cfg) cfg.numBrokers.toNat
              (shuffles p) p).length - 1 - k) := by
  have htot := totalBrokers_pos cfg hv.brokers_pos hv.dcs_pos
  obtain ⟨htopo, -⟩ := result_topology cfg shuffles htot hres
  constructor
  · intro hmode dc hdc br hbr r hr
    rw [htopo] at hdc
    rw [mem_buildTopology_replicas hdc hbr, mem_replicasFor] at hr
    rw [placementLog, List.mem_flatMap] at hr
    rcases hr with ⟨q, _, hr⟩
    rcases partitionEntries_spec cfg (numDCsEff cfg) cfg.numBrokers.toNat q
      (shuffles q) htot (hperm q) with ⟨st, heq, hinv, -⟩
    rw [heq] at hr
    exact (hinv.role_counts_single hmode).2 _ hr
  · intro hmode p hp
    rcases partitionEntries_spec cfg (numDCsEff cfg) cfg.numBrokers.toNat p
      (shuffles p) htot (hperm p) with ⟨st, heq, hinv, -⟩
    have hmode' : cfg.clusterType ≠ ClusterType.SingleCluster := by
      rw [hmode]; intro h; exact ClusterType.noConfusion h
    rcases hinv.roles_mrc hmode' with ⟨hshape, hle, hfull⟩
    have hlen : st.entries.length = 1 + st.numFollowers + st.numObservers := by
      have h := congrArg List.length hshape
      simp only [List.length_map, List.length_cons, List.length_append,
        List.length_replicate] at h
      omega
    refine ⟨st.numFollowers, st.numObservers, by rw [heq]; exact hshape, ?_, ?_⟩
    · rw [heq]
      rcases Nat.eq_zero_or_pos st.numObservers with h0 | h0
      · rw [h0] at hlen
        omega
      · have := hfull h0
        omega
    · rw [heq]
      omega

/-- Whatever branch succeeds, the returned advisory is the computed
recommendation. -/
theorem result_advisory (cfg : PlacementConfig) (shuffles : Nat → List Nat)
    {topo : List DCInfo} {adv : String}
    (hres : CalculatePlacement cfg shuffles = some (topo, adv)) :
    mrcRecommendationOf cfg = some adv := by
  cases hr : mrcRecommendationOf cfg with
  | none =>
    simp only [CalculatePlacement, hr] at hres
    exact Option.noConfusion hres
  | some r =>
    simp only [CalculatePlacement, hr] at hres
    split at hres
    · simp only [Option.some.injEq, Prod.mk.injEq] at hres
      rw [hres.2]
    · split at hres
      · simp only [Option.some.injEq, Prod.mk.injEq] at hres
        rw [hres.2]
      · simp only [Option.some.injEq, Prod.mk.injEq] at hres
        rw [hres.2]

/-- The advisory computation panics (divides by zero) exactly for an MRC
request with zone count `0` and `RF > 0`. -/
theorem mrcRecommendationOf_eq_none (cfg : PlacementConfig) :
    mrcRecommendationOf cfg = none ↔
      cfg.clusterType = ClusterType.MRC ∧ cfg.numDCs = 0 ∧
        0 < cfg.replicationFactor := by
  rw [mrcRecommendationOf]
  by_cases hmode : cfg.clusterType = ClusterType.MRC
  · rw [if_pos hmode]
    by_cases hle : cfg.replicationFactor ≤ cfg.numDCs
    · rw [if_pos hle]
      constructor
      · intro h
        exact Option.noConfusion h
      · rintro ⟨-, h0, hrf⟩
        rw [h0] at hle
        omega
    · by_cases h0 : cfg.numDCs = 0
      · rw [if_neg hle, if_pos h0]
        refine ⟨fun _ => ⟨hmode, h0, ?_⟩, fun _ => rfl⟩
        rw [h0] at hle
        omega
      · rw [if_neg hle, if_neg h0]
        constructor
        · intro h
          exact Option.noConfusion h
        · rintro ⟨-, h0', -⟩
          exact absurd h0' h0
  · rw [if_neg hmode]
    constructor
    · intro h
      exact Option.noConfusion h
    · rintro ⟨hm, -, -⟩
      exact absurd hm hmode

/-- C7 counterexample: an MRC request with zero brokers per zone has zero
total brokers, yet the advisory returned with the empty topology is the
usual (non-empty) MRC recommendation — the claim's "empty advisory
string" is false for MultiRegion zero-broker requests. -/
theorem claim_C7_counterexample :
    (CalculatePlacement ⟨ClusterType.MRC, 1, 1, 1, 0, 2⟩ (fun _ => [])).map
      Prod.snd ≠ some "" := by
  decide

/-- C7 (amended): with zero total brokers the engine places no replicas
and returns the freshly initialised topology paired with the computed
advisory; the advisory is empty in Single mode, while MRC mode still
produces the usual MRC recommendation (and an MRC request with zero zones
and RF ≥ 1 fails in the advisory computation, modelled by `none`). -/
theorem claim_C7_amended (cfg : PlacementConfig) (shuffles : Nat → List Nat)
    (h0 : totalBrokersOf (numDCsEff cfg) cfg.numBrokers.toNat = 0) :
    CalculatePlacement cfg shuffles =
      (mrcRecommendationOf cfg).map (fun r =>
        (initDCsOf (numDCsEff cfg) cfg.numBrokers.toNat, r)) ∧
    (∀ dc ∈ initDCsOf (numDCsEff cfg) cfg.numBrokers.toNat, ∀ br ∈ dc.brokers,
      br.replicas = []) ∧
    (cfg.clusterType = ClusterType.SingleCluster →
      mrcRecommendationOf cfg = some "") := by
  refine ⟨?_, ?_, ?_⟩
  · cases hr : mrcRecommendationOf cfg with
    | none => simp [CalculatePlacement, hr]
    | some r =>
      simp only [CalculatePlacement, hr, Option.map_some']
      rw [if_neg (by omega), if_pos h0]
  · intro dc hdc br hbr
    rw [initDCsOf, List.mem_map] at hdc
    rcases hdc with ⟨i, _, rfl⟩
    simp only [List.mem_map] at hbr
    rcases hbr with ⟨b, _, rfl⟩
    rfl
  · intro hmode
    rw [mrcRecommendationOf,
      if_neg (by rw [hmode]; intro h; exact ClusterType.noConfusion h)]

/-- C8 counterexample: a MultiRegion request with zero zones and RF = 3
reaches `minPerDC := RF / numDCs` with `numDCs = 0`; Go panics with an
integer division by zero (modelled by `none`), so the engine is not total
on degenerate inputs. -/
theorem claim_C8_counterexample :
    CalculatePlacement ⟨ClusterType.MRC, 1, 3, 1, 5, 0⟩ (fun _ => []) = none := by
  rfl

/-- C8 (amended): the engine returns a result for every input request —
all indices, lookups and the modulo in leader selection are guarded —
except in exactly one case: a MultiRegion request with zone count `0` and
`RF > 0`, where the advisory's `RF / zoneCount` divides by zero and
panics. -/
theorem claim_C8_amended (cfg : PlacementConfig) (shuffles : Nat → List Nat) :
    (CalculatePlacement cfg shuffles).isSome = true ↔
      ¬ (cfg.clusterType = ClusterType.MRC ∧ cfg.numDCs = 0 ∧
          0 < cfg.replicationFactor) := by
  constructor
  · intro hs hcond
    have hnone := (mrcRecommendationOf_eq_none cfg).mpr hcond
    simp only [CalculatePlacement, hnone] at hs
    exact Bool.noConfusion hs
  · intro hncond
    cases hr : mrcRecommendationOf cfg with
    | none => exact absurd ((mrcRecommendationOf_eq_none cfg).mp hr) hncond
    | some r =>
      simp only [CalculatePlacement, hr]
      split
      · rfl
      · split
        · rfl
        · rfl

/-- C9: for every MultiRegion request whose advisory is produced (the only
other case, zone count `0` with `RF > 0`, panics — see C8), the returned
advisory states RF and the zone count, and: when `RF ≤ zones` it carries
the "at most one replica per DC per partition" advice, otherwise it
reports exactly `minPerZone = RF tdiv zones` and `extraZones = RF tmod
zones` (Go's truncated `int` division and remainder); e.g. RF = 5,
zones = 3 yields the pair 1 and 2. -/
theorem claim_C9 (cfg : PlacementConfig) (shuffles : Nat → List Nat)
    (topo : List DCInfo) (adv : String) (rf z : Int)
    (hrf : rf = cfg.replicationFactor) (hz : z = cfg.numDCs)
    (hmrc : cfg.clusterType = ClusterType.MRC)
    (hres : CalculatePlacement cfg shuffles = some (topo, adv)) :
    adv = s!"Distribute {rf} replicas across {z} DCs for fault tolerance." ++
      (if rf ≤ z then " Aim for at most one replica per DC per partition."
       else
        s!" Aim for ~{Int.tdiv rf z} replicas per DC, with {Int.tmod rf z} DCs having an extra replica.") := by
  subst hrf hz
  have hadv := result_advisory cfg shuffles hres
  rw [mrcRecommendationOf, if_pos hmrc] at hadv
  by_cases hle : cfg.replicationFactor ≤ cfg.numDCs
  · rw [if_pos hle] at hadv
    rw [if_pos hle]
    exact (Option.some_inj.mp hadv).symm
  · rw [if_neg hle] at hadv
    by_cases h0 : cfg.numDCs = 0
    · rw [if_pos h0] at hadv
      exact Option.noConfusion hadv
    · rw [if_neg h0] at hadv
      rw [if_neg hle]
      exact (Option.some_inj.mp hadv).symm

/-- C10: the two near-duplicate implementations are behaviourally
equivalent: for every valid request (all counts ≥ 1, minISR ≤ RF,
RF ≤ total brokers; the Single-mode front-end flow stores `numDCs = 1`,
which both engines receive) and the same shuffle outcomes, the monolithic
`main.go` engine and the package engine return the same topology and the
same advisory string. -/
theorem claim_C10 (cfg : PlacementConfig) (shuffles : Nat → List Nat)
    (hv : ValidConfig cfg)
    (hsingle : cfg.clusterType = ClusterType.SingleCluster → cfg.numDCs = 1) :
    Monolithic.calculatePlacement cfg shuffles = CalculatePlacement cfg shuffles := by
  have hD : cfg.numDCs.toNat = numDCsEff cfg := by
    rw [numDCsEff]
    by_cases hmode : cfg.clusterType = ClusterType.SingleCluster
    · rw [if_pos hmode, hsingle hmode]
      rfl
    · rw [if_neg hmode]
  have htot := totalBrokers_pos cfg hv.brokers_pos hv.dcs_pos
  simp only [Monolithic.calculatePlacement, CalculatePlacement, hD]
  cases hr : mrcRecommendationOf cfg with
  | none => rfl
  | some r =>
    dsimp only
    rw [if_neg (by omega), if_neg (by omega),
      if_neg (by rw [length_allBrokerIDsOf]; omega)]

/-! ### The C6 scenario: MRC, 2 zones x 2 brokers, RF = 2, minISR = 2

Here `targetFollowers = 1`, `targetObservers = 0` and pass 1's zone
preference forces the single non-leader replica into the other zone:
while only the leader's DC is used, any same-DC candidate is deferred
because an unassigned broker always remains in the other DC. -/

/-- The C6 request family (any partition count). -/
def cfg6 (P : Int) : PlacementConfig :=
  ⟨ClusterType.MRC, P, 2, 2, 2, 2⟩

theorem findBroker_c6 : ∀ b, b < 4 →
    findBroker b (initDCsOf 2 2) = some (b / 2 + 1) := by
  intro b hb
  interval_cases b <;> rfl

/-- One pass-1 iteration from the post-leader state under the C6 scenario:
the candidate is skipped when it is the leader or lies in the leader's DC
(a fresh-zone alternative exists), and otherwise becomes the Follower,
completing the partition. -/
theorem c6_pass1Step (P : Int) (shuffled : List Nat) (pid L dL b : Nat)
    (hb : b < 4)
    (hcpe : canPlaceElsewhereB (initDCsOf 2 2) shuffled {L} {dL} = true) :
    (pass1Step (cfg6 P) (initDCsOf 2 2) shuffled pid 1 0 (leaderState L pid dL) b =
        leaderState L pid dL ∧ (b = L ∨ b / 2 + 1 = dL)) ∨
    (b / 2 + 1 ≠ dL ∧ b ≠ L ∧
      pass1Step (cfg6 P) (initDCsOf 2 2) shuffled pid 1 0 (leaderState L pid dL) b =
        { entries := [⟨L, pid, ReplicaRole.Leader⟩, ⟨b, pid, ReplicaRole.Follower⟩]
          assignedB := insert b {L}
          assignedD := insert (b / 2 + 1) {dL}
          replicasPlaced := 2
          numFollowers := 1
          numObservers := 0 }) := by
  have hfb := findBroker_c6 b hb
  by_cases hbL : b = L
  · left
    refine ⟨?_, Or.inl hbL⟩
    rw [pass1Step, if_neg (by norm_num [cfg6, leaderState]),
      if_pos (by simp [leaderState, hbL])]
  · by_cases hdb : b / 2 + 1 = dL
    · left
      refine ⟨?_, Or.inr hdb⟩
      rw [pass1Step, if_neg (by norm_num [cfg6, leaderState]),
        if_neg (by simp [leaderState, hbL]), hfb]
      dsimp only
      have hplace : placeInThisDCB (cfg6 P) (initDCsOf 2 2) shuffled
          (leaderState L pid dL).assignedB (leaderState L pid dL).assignedD
          (b / 2 + 1) = false := by
        rw [placeInThisDCB,
          if_pos ⟨rfl, by norm_num [leaderState, cfg6]⟩,
          if_pos (by simp [leaderState, hdb])]
        have : canPlaceElsewhereB (initDCsOf 2 2) shuffled
            (leaderState L pid dL).assignedB (leaderState L pid dL).assignedD =
            canPlaceElsewhereB (initDCsOf 2 2) shuffled {L} {dL} := rfl
        rw [this, hcpe]
        rfl
      rw [if_neg (by rw [hplace]; exact Bool.false_ne_true)]
    · right
      refine ⟨hdb, hbL, ?_⟩
      rw [pass1Step, if_neg (by norm_num [cfg6, leaderState]),
        if_neg (by simp [leaderState, hbL]), hfb]
      dsimp only
      have hplace : placeInThisDCB (cfg6 P) (initDCsOf 2 2) shuffled
          (leaderState L pid dL).assignedB (leaderState L pid dL).assignedD
          (b / 2 + 1) = true := by
        rw [placeInThisDCB,
          if_pos ⟨rfl, by norm_num [leaderState, cfg6]⟩,
          if_neg (by simp [leaderState, hdb])]
      rw [if_pos (by rw [hplace])]
      have hrole : rolePickOf (cfg6 P) 1 0 (leaderState L pid dL) =
          (ReplicaRole.Follower, 1, 0) := by
        rw [rolePickOf, if_neg (by intro h; exact ClusterType.noConfusion h)]
        rfl
      rw [hrole]
      rfl

/-- Pass 1 under the C6 scenario: either nothing was placed and every
candidate was the leader or in the leader's DC, or exactly one cross-DC
Follower was placed (completing the partition). -/
theorem c6_pass1_fold (P : Int) (shuffled : List Nat) (pid L dL : Nat)
    (hcpe : canPlaceElsewhereB (initDCsOf 2 2) shuffled {L} {dL} = true) :
    ∀ l : List Nat, (∀ b ∈ l, b < 4) →
      (l.foldl (pass1Step (cfg6 P) (initDCsOf 2 2) shuffled pid 1 0)
          (leaderState L pid dL) = leaderState L pid dL ∧
        ∀ b ∈ l, b = L ∨ b / 2 + 1 = dL) ∨
      (∃ b, b < 4 ∧ b / 2 + 1 ≠ dL ∧ b ≠ L ∧
        l.foldl (pass1Step (cfg6 P) (initDCsOf 2 2) shuffled pid 1 0)
            (leaderState L pid dL) =
          { entries := [⟨L, pid, ReplicaRole.Leader⟩, ⟨b, pid, ReplicaRole.Follower⟩]
            assignedB := insert b {L}
            assignedD := insert (b / 2 + 1) {dL}
            replicasPlaced := 2
            numFollowers := 1
            numObservers := 0 }) := by
  intro l
  induction l with
  | nil =>
    intro _
    left
    exact ⟨rfl, by simp⟩
  | cons c l ih =>
    intro hlt
    rw [List.foldl_cons]
    rcases c6_pass1Step P shuffled pid L dL c (hlt c (List.mem_cons_self _ _)) hcpe with
      ⟨hstep, hc⟩ | ⟨hne, hneL, hstep⟩
    · rw [hstep]
      rcases ih (fun b hb => hlt b (List.mem_cons_of_mem _ hb)) with
        ⟨hfold, hall⟩ | ⟨b, hb4, hbne, hbneL, hfold⟩
      · left
        refine ⟨hfold, fun b hb => ?_⟩
        rcases List.mem_cons.mp hb with hbc | hb'
        · rw [hbc]; exact hc
        · exact hall b hb'
      · right
        exact ⟨b, hb4, hbne, hbneL, hfold⟩
    · rw [hstep]
      right
      refine ⟨c, hlt c (List.mem_cons_self _ _), hne, hneL, ?_⟩
      exact foldl_done (pass1Step_shape (cfg6 P) (initDCsOf 2 2) shuffled pid 1 0)
        l _ (by norm_num [cfg6])

/-- The global broker list of the C6 skeleton. -/
theorem allBrokerIDs_c6 : allBrokerIDsOf 2 2 = [0, 1, 2, 3] := by
  rfl

/-- The per-partition outcome of the C6 scenario, for every shuffle: a
Leader on broker `p mod 4` and a Follower on a broker of the other DC,
nothing else. -/
theorem c6_partitionEntries (P : Int) (shuffled : List Nat) (p : Nat)
    (hperm : shuffled.Perm (allBrokerIDsOf 2 2)) :
    ∃ b dL, b < 4 ∧ b / 2 + 1 ≠ dL ∧
      findBroker (p % 4) (initDCsOf 2 2) = some dL ∧
      findBroker b (initDCsOf 2 2) = some (b / 2 + 1) ∧
      partitionEntries (cfg6 P) 2 2 shuffled p =
        [⟨p % 4, p + 1, ReplicaRole.Leader⟩, ⟨b, p + 1, ReplicaRole.Follower⟩] := by
  have hL4 : p % 4 < 4 := Nat.mod_lt _ (by norm_num)
  have hdL := findBroker_c6 (p % 4) hL4
  have hmem4 : ∀ b, b < 4 → b ∈ shuffled := by
    intro b hb
    rw [hperm.mem_iff, allBrokerIDs_c6]
    interval_cases b <;> simp
  have hlt : ∀ b ∈ shuffled, b < 4 := by
    intro b hb
    have := hperm.mem_iff.mp hb
    rw [allBrokerIDs_c6] at this
    simp at this
    omega
  -- a broker in the other DC, distinct from the leader
  obtain ⟨w, hw4, hwz⟩ : ∃ w, w < 4 ∧ w / 2 + 1 ≠ (p % 4) / 2 + 1 := by
    rcases Nat.lt_or_ge (p % 4) 2 with h | h
    · exact ⟨2, by norm_num, by omega⟩
    · exact ⟨0, by norm_num, by omega⟩
  have hwL : w ≠ p % 4 := by
    intro hw
    rw [hw] at hwz
    exact hwz rfl
  have hcpe : canPlaceElsewhereB (initDCsOf 2 2) shuffled {p % 4} {(p % 4) / 2 + 1}
      = true := by
    rw [canPlaceElsewhereB, List.any_eq_true]
    refine ⟨w, hmem4 w hw4, ?_⟩
    rw [findBroker_c6 w hw4]
    simp [hwL, hwz]
  rcases c6_pass1_fold P shuffled (p + 1) (p % 4) ((p % 4) / 2 + 1) hcpe shuffled hlt with
    ⟨-, hall⟩ | ⟨b, hb4, hbne, hbneL, hfold⟩
  · rcases hall w (hmem4 w hw4) with h | h
    · exact absurd h hwL
    · exact absurd h hwz
  · refine ⟨b, (p % 4) / 2 + 1, hb4, hbne, hdL, findBroker_c6 b hb4, ?_⟩
    rw [partitionEntries]
    have hgetD : (allBrokerIDsOf 2 2).getD (p % totalBrokersOf 2 2) 0 = p % 4 :=
      getD_allBrokerIDsOf 2 2 (p % totalBrokersOf 2 2) (Nat.mod_lt _ (by decide))
    simp only [hgetD, hdL]
    rw [runPasses]
    have htF : targetFollowersOf (cfg6 P) = 1 := rfl
    have htO : targetObserversOf (cfg6 P) = 0 := rfl
    rw [htF, htO, hfold]
    rw [if_neg (by norm_num [cfg6])]

/-- Locating a broker of a built topology inside its DC: the DC with id
`i + 1` holds exactly the brokers `i*B .. i*B+B-1`. -/
theorem mem_buildTopology_broker_dc {D B : Nat} {log : List Entry}
    {dc : DCInfo} {br : BrokerInfo}
    (hdc : dc ∈ buildTopology D B log) (hbr : br ∈ dc.brokers) :
    ∃ i, i < D ∧ dc.id = i + 1 ∧ ∃ j, j < B ∧ br.id = i * B + j := by
  rw [buildTopology, List.mem_map] at hdc
  rcases hdc with ⟨dc0, hdc0, rfl⟩
  rw [initDCsOf, List.mem_map] at hdc0
  rcases hdc0 with ⟨i, hi, rfl⟩
  simp only [List.mem_map, mem_dcBrokerIDs] at hbr
  rcases hbr with ⟨br0, ⟨b0, ⟨j, hj, hb0⟩, rfl⟩, rfl⟩
  exact ⟨i, List.mem_range.mp hi, rfl, j, hj, hb0.symm⟩

/-- Any logged entry of partition `p + 1` comes from partition `p`'s run. -/
theorem c6_log_entry (P : Int) (shuffles : Nat → List Nat)
    (hperm : ∀ q, (shuffles q).Perm (allBrokerIDsOf 2 2))
    (p x : Nat) (role : ReplicaRole)
    (hmem : (⟨x, p + 1, role⟩ : Entry) ∈ placementLog (cfg6 P) 2 2 shuffles) :
    (⟨x, p + 1, role⟩ : Entry) ∈ partitionEntries (cfg6 P) 2 2 (shuffles p) p := by
  rw [placementLog, List.mem_flatMap] at hmem
  rcases hmem with ⟨q, hq, hmem⟩
  have hqp : q = p := by
    have h := partitionEntries_partition (cfg6 P) 2 2 q (shuffles q)
      (by norm_num) (hperm q) _ hmem
    simpa using h.symm
  subst hqp
  exact hmem

/-- C6: in the MRC scenario with 2 zones of 2 brokers, RF = 2 and
minISR = 2, for every outcome of the shuffles every partition gets exactly
one Leader and one Follower (no Observers), and no DC holds both of them:
the Follower's zone always differs from the Leader's zone, because pass 1
defers any same-zone candidate while a fresh-zone broker remains. -/
theorem claim_C6 (P : Int) (shuffles : Nat → List Nat)
    (topo : List DCInfo) (adv : String)
    (hperm : ∀ q, (shuffles q).Perm (allBrokerIDsOf 2 2))
    (hres : CalculatePlacement (cfg6 P) shuffles = some (topo, adv))
    (p : Nat) (hp : p < P.toNat) :
    countRole topo (p + 1) ReplicaRole.Leader = 1 ∧
    countRole topo (p + 1) ReplicaRole.Follower = 1 ∧
    countRole topo (p + 1) ReplicaRole.Observer = 0 ∧
    ∀ dc ∈ topo,
      ¬ ((∃ br1 ∈ dc.brokers,
            (⟨p + 1, ReplicaRole.Leader⟩ : ReplicaInfo) ∈ br1.replicas) ∧
         (∃ br2 ∈ dc.brokers,
            (⟨p + 1, ReplicaRole.Follower⟩ : ReplicaInfo) ∈ br2.replicas)) := by
  have hperm' : ∀ q, (shuffles q).Perm
      (allBrokerIDsOf (numDCsEff (cfg6 P)) ((cfg6 P).numBrokers.toNat)) := hperm
  have htot : 0 < totalBrokersOf (numDCsEff (cfg6 P)) ((cfg6 P).numBrokers.toNat) := by
    show (0:Nat) < 4
    norm_num
  have hp' : p < (cfg6 P).numPartitions.toNat := hp
  obtain ⟨htopo, -⟩ := result_topology (cfg6 P) shuffles htot hres
  have hD : numDCsEff (cfg6 P) = 2 := rfl
  have hB : (cfg6 P).numBrokers.toNat = 2 := rfl
  rw [hD, hB] at htopo
  have htot2 : (0:Nat) < 2 * 2 := by norm_num
  have hperm2 : ∀ q, (shuffles q).Perm (allBrokerIDsOf 2 2) := hperm
  rcases c6_partitionEntries P (shuffles p) p (hperm p) with
    ⟨b, dL, hb4, hbne, hdL, hfbb, hpe⟩
  have hdLval : dL = (p % 4) / 2 + 1 := by
    have := findBroker_c6 (p % 4) (Nat.mod_lt _ (by norm_num))
    rw [hdL] at this
    exact Option.some_inj.mp this
  refine ⟨?_, ?_, ?_, ?_⟩
  · rw [htopo, countRole_result (cfg6 P) 2 2 shuffles htot2 hperm2 p hp', hpe]
    simp
  · rw [htopo, countRole_result (cfg6 P) 2 2 shuffles htot2 hperm2 p hp', hpe]
    simp
  · rw [htopo, countRole_result (cfg6 P) 2 2 shuffles htot2 hperm2 p hp', hpe]
    simp
  · rintro dc hdc ⟨⟨br1, hbr1, hm1⟩, ⟨br2, hbr2, hm2⟩⟩
    rw [htopo] at hdc
    rw [mem_buildTopology_replicas hdc hbr1, mem_replicasFor] at hm1
    rw [mem_buildTopology_replicas hdc hbr2, mem_replicasFor] at hm2
    have hm1' := c6_log_entry P shuffles hperm2 p br1.id ReplicaRole.Leader hm1
    have hm2' := c6_log_entry P shuffles hperm2 p br2.id ReplicaRole.Follower hm2
    rw [hpe] at hm1' hm2'
    have hid1 : br1.id = p % 4 := by
      rcases List.mem_cons.mp hm1' with h | h
      · exact congrArg Entry.broker h
      · simp only [List.mem_singleton] at h
        have := congrArg Entry.role h
        exact absurd this (by simp)
    have hid2 : br2.id = b := by
      rcases List.mem_cons.mp hm2' with h | h
      · have := congrArg Entry.role h
        exact absurd this (by simp)
      · simp only [List.mem_singleton] at h
        exact congrArg Entry.broker h
    rcases mem_buildTopology_broker_dc hdc hbr1 with ⟨i1, hi1, hdcid1, j1, hj1, hbid1⟩
    rcases mem_buildTopology_broker_dc hdc hbr2 with ⟨i2, hi2, hdcid2, j2, hj2, hbid2⟩
    have hii : i1 = i2 := by omega
    rw [hid1] at hbid1
    rw [hid2] at hbid2
    apply hbne
    rw [hdLval]
    omega

/-! ### Concrete witnesses -/

/-- C1 witness: Single cluster, 3 brokers, 4 partitions, RF = 2,
minISR = 1, identity shuffle: partition 1 has exactly one Leader. -/
theorem claim_C1_witness :
    countRole (buildTopology 1 3 (placementLog
        ⟨ClusterType.SingleCluster, 4, 2, 1, 3, 1⟩ 1 3 (fun _ => [0, 1, 2])))
      (0 + 1) ReplicaRole.Leader = 1 :=
  claim_C1 ⟨ClusterType.SingleCluster, 4, 2, 1, 3, 1⟩ (fun _ => [0, 1, 2])
    (buildTopology 1 3 (placementLog ⟨ClusterType.SingleCluster, 4, 2, 1, 3, 1⟩
      1 3 (fun _ => [0, 1, 2]))) ""
    ⟨by decide, by decide, by decide, by decide, by decide, by decide, by decide⟩
    (fun _ => List.Perm.refl _) (by decide) 0 (by decide)

/-- C2 witness: same scenario; partition 1 receives exactly RF = 2
replicas. -/
theorem claim_C2_witness :
    countReplicas (buildTopology 1 3 (placementLog
        ⟨ClusterType.SingleCluster, 4, 2, 1, 3, 1⟩ 1 3 (fun _ => [0, 1, 2])))
      (0 + 1) = (2 : Int).toNat :=
  (claim_C2 ⟨ClusterType.SingleCluster, 4, 2, 1, 3, 1⟩ (fun _ => [0, 1, 2])
    (buildTopology 1 3 (placementLog ⟨ClusterType.SingleCluster, 4, 2, 1, 3, 1⟩
      1 3 (fun _ => [0, 1, 2]))) ""
    (by decide) (by decide) (by decide)
    (fun _ => List.Perm.refl _) (by decide) 0 (by decide)).2 (by decide)

/-- C3 witness: same scenario; the first broker of the first DC holds at
most one replica of partition 1. -/
theorem claim_C3_witness :
    ((((buildTopology 1 3 (placementLog
          ⟨ClusterType.SingleCluster, 4, 2, 1, 3, 1⟩ 1 3
          (fun _ => [0, 1, 2]))).getD 0 ⟨0, []⟩).brokers.getD 0
        ⟨0, []⟩).replicas.filter (fun r => decide (r.partitionID = 1))).length ≤ 1 :=
  claim_C3 ⟨ClusterType.SingleCluster, 4, 2, 1, 3, 1⟩ (fun _ => [0, 1, 2])
    (buildTopology 1 3 (placementLog ⟨ClusterType.SingleCluster, 4, 2, 1, 3, 1⟩
      1 3 (fun _ => [0, 1, 2]))) ""
    ⟨by decide, by decide, by decide, by decide, by decide, by decide, by decide⟩
    (fun _ => List.Perm.refl _) (by decide)
    ((buildTopology 1 3 (placementLog ⟨ClusterType.SingleCluster, 4, 2, 1, 3, 1⟩
      1 3 (fun _ => [0, 1, 2]))).getD 0 ⟨0, []⟩) (by decide)
    (((buildTopology 1 3 (placementLog ⟨ClusterType.SingleCluster, 4, 2, 1, 3, 1⟩
      1 3 (fun _ => [0, 1, 2]))).getD 0 ⟨0, []⟩).brokers.getD 0 ⟨0, []⟩)
    (by decide) 1

/-- C5 witness: MRC with 2 DCs of 3 brokers, RF = 5, minISR = 2: the role
sequence of partition 1 is Leader, then `targetFollowers = 1` Follower,
then only Observers. -/
theorem claim_C5_witness :
    (partitionEntries ⟨ClusterType.MRC, 1, 5, 2, 3, 2⟩ 2 3
        [0, 1, 2, 3, 4, 5] 0).map Entry.role =
      [ReplicaRole.Leader, ReplicaRole.Follower, ReplicaRole.Observer,
        ReplicaRole.Observer, ReplicaRole.Observer] := by
  obtain ⟨k, m, heq, hk, hm⟩ :=
    (claim_C5 ⟨ClusterType.MRC, 1, 5, 2, 3, 2⟩ (fun _ => [0, 1, 2, 3, 4, 5])
      (buildTopology 2 3 (placementLog ⟨ClusterType.MRC, 1, 5, 2, 3, 2⟩ 2 3
        (fun _ => [0, 1, 2, 3, 4, 5])))
      ((mrcRecommendationOf ⟨ClusterType.MRC, 1, 5, 2, 3, 2⟩).getD "")
      ⟨by decide, by decide, by decide, by decide, by decide, by decide, by decide⟩
      (fun _ => List.Perm.refl _) (by decide)).2 rfl 0 (by decide)
  have hk1 : k = 1 := by rw [hk]; rfl
  have hm3 : m = 3 := by rw [hm, hk1]; rfl
  rw [hk1, hm3] at heq
  exact heq

/-- C6 witness: the concrete scenario with one partition and a genuinely
shuffled candidate list: one Leader, one Follower, no Observer. -/
theorem claim_C6_witness :
    countRole (buildTopology 2 2 (placementLog (cfg6 1) 2 2
        (fun _ => [1, 3, 0, 2]))) (0 + 1) ReplicaRole.Leader = 1 ∧
    countRole (buildTopology 2 2 (placementLog (cfg6 1) 2 2
        (fun _ => [1, 3, 0, 2]))) (0 + 1) ReplicaRole.Follower = 1 ∧
    countRole (buildTopology 2 2 (placementLog (cfg6 1) 2 2
        (fun _ => [1, 3, 0, 2]))) (0 + 1) ReplicaRole.Observer = 0 := by
  obtain ⟨h1, h2, h3, -⟩ :=
    claim_C6 1 (fun _ => [1, 3, 0, 2])
      (buildTopology 2 2 (placementLog (cfg6 1) 2 2 (fun _ => [1, 3, 0, 2])))
      ((mrcRecommendationOf (cfg6 1)).getD "")
      (fun _ => (by decide : List.Perm [1, 3, 0, 2] (allBrokerIDsOf 2 2)))
      (by decide) 0 (by decide)
  exact ⟨h1, h2, h3⟩

/-- C7 (amended) witness: a Single request with zero brokers yields the
initialised empty topology with the empty advisory. -/
theorem claim_C7_amended_witness :
    CalculatePlacement ⟨ClusterType.SingleCluster, 1, 1, 1, 0, 1⟩ (fun _ => []) =
      some (initDCsOf 1 0, "") ∧
    mrcRecommendationOf ⟨ClusterType.SingleCluster, 1, 1, 1, 0, 1⟩ = some "" := by
  obtain ⟨h1, -, h3⟩ :=
    claim_C7_amended ⟨ClusterType.SingleCluster, 1, 1, 1, 0, 1⟩ (fun _ => [])
      (by decide)
  refine ⟨?_, h3 rfl⟩
  rw [h1, h3 rfl]
  rfl

/-- C9 witness: RF = 5, zones = 3 produce exactly `minPerZone = 1` and
`extraZones = 2` in the advisory. -/
theorem claim_C9_witness :
    (mrcRecommendationOf ⟨ClusterType.MRC, 1, 5, 1, 2, 3⟩).getD "" =
      "Distribute 5 replicas across 3 DCs for fault tolerance. Aim for ~1 replicas per DC, with 2 DCs having an extra replica." :=
  claim_C9 ⟨ClusterType.MRC, 1, 5, 1, 2, 3⟩ (fun _ => [0, 1, 2, 3, 4, 5])
    (buildTopology 3 2 (placementLog ⟨ClusterType.MRC, 1, 5, 1, 2, 3⟩ 3 2
      (fun _ => [0, 1, 2, 3, 4, 5])))
    ((mrcRecommendationOf ⟨ClusterType.MRC, 1, 5, 1, 2, 3⟩).getD "")
    5 3 rfl rfl rfl (by decide)

/-- C10 witness: on a valid Single request both engines compute the same
result. -/
theorem claim_C10_witness :
    Monolithic.calculatePlacement ⟨ClusterType.SingleCluster, 2, 2, 1, 3, 1⟩
        (fun _ => [2, 0, 1]) =
      CalculatePlacement ⟨ClusterType.SingleCluster, 2, 2, 1, 3, 1⟩
        (fun _ => [2, 0, 1]) :=
  claim_C10 ⟨ClusterType.SingleCluster, 2, 2, 1, 3, 1⟩ (fun _ => [2, 0, 1])
    ⟨by decide, by decide, by decide, by decide, by decide, by decide, by decide⟩
    (fun _ => rfl)

end KafkaViz
